import Mathlib

structure RawNode where
  id : Nat
  parents : List Nat
  level : Nat
deriving Repr, DecidableEq

structure RNode where
  id : String
  type : String
  parents : List String
  level : Nat
  cost : Nat
deriving Repr, DecidableEq

/-- Python loop `for i in range(0, num_parents, chunk_size)` taking slice
`parents[i : i + chunk_size]` each round: slice k is `(l.drop (k*c)).take c` and
there are `ceil(n/c)` slices.  `c = 0` raises ValueError in Python; we return []
in that error case. -/
def chunks {α : Type} (c : Nat) (l : List α) : List (List α) :=
  if c = 0 then []
  else (List.range ((l.length + c - 1) / c)).map (fun k => (l.drop (k * c)).take c)

def pId (nid k : Nat) : String := "P_" ++ toString nid ++ "_" ++ toString k

def partialsOf (c : Nat) (n : RawNode) : List RNode :=
  (chunks c n.parents).enum.map fun kc =>
    ⟨pId n.id kc.1, "PARTIAL", kc.2.map toString, n.level, kc.2.length⟩

def fusionOf (c : Nat) (n : RawNode) : RNode :=
  ⟨toString n.id, "FUSION", (partialsOf c n).map (·.id), n.level + 1, 2⟩

def normalOf (n : RawNode) : RNode :=
  ⟨toString n.id, "NORMAL", n.parents.map toString, n.level, n.parents.length + 1⟩

def rewriteNode (t c : Nat) (n : RawNode) : List RNode :=
  if n.parents.length ≤ t then [normalOf n]
  else partialsOf c n ++ [fusionOf c n]

def rewrite (t c : Nat) (dag : List RawNode) : List RNode :=
  dag.flatMap (rewriteNode t c)

/-! MEC compiler (mec_compiler_resource.py) -/
def updMap (f : String → Nat) (x : String) (v : Nat) : String → Nat :=
  fun y => if y = x then v else f y

def calcPeMec (ty : String) (pm : List Nat) : Nat :=
  match pm with
  | [] => 1
  | _ =>
    let t := (List.insertionSort (fun a b => a ≤ b) pm).foldl (fun t a => Nat.max a t + 1) 0
    if ty = "NORMAL" then t + 1 else t

def dataReadyOf (pm : List Nat) : Nat :=
  match pm with
  | [] => 0
  | _ => pm.foldl Nat.max 0

def compStep (s : (String → Nat) × Nat) (n : RNode) : (String → Nat) × Nat :=
  let pm := n.parents.map s.1
  if n.type = "FUSION" then
    let start := Nat.max (dataReadyOf pm) s.2
    (updMap s.1 n.id (start + 2), start + 1)
  else
    (updMap s.1 n.id (calcPeMec n.type pm), s.2)

def dictInsert (l : List RNode) (n : RNode) : List RNode :=
  if l.any (fun m => m.id = n.id) then l.map (fun m => if m.id = n.id then n else m)
  else l ++ [n]

def buildNodes (dag : List RNode) : List RNode :=
  dag.foldl dictInsert []

def sortedNodes (dag : List RNode) : List RNode :=
  List.insertionSort (fun a b => a.level ≤ b.level) (buildNodes dag)

def compilerRun (dag : List RNode) : (String → Nat) × Nat :=
  (sortedNodes dag).foldl compStep (fun _ => 0, 0)

def compMec (dag : List RNode) (x : String) : Nat := (compilerRun dag).1 x

def compScore (dag : List RNode) : Nat := (compilerRun dag).2

-- S2 scenario
def s2raw : List RawNode :=
  ⟨0, [1,2,3,4,5,6,7,8,9,10,11,12], 1⟩ ::
    (List.range 12).map (fun i => ⟨i + 1, [], 0⟩)

def s2dag : List RNode := rewrite 5 5 s2raw

-- S1 chain
def s1raw : List RawNode := [⟨0, [], 0⟩, ⟨1, [0], 1⟩, ⟨2, [1], 2⟩]

def s1dag : List RNode := rewrite 5 5 s1raw

-- C4 counterexample: same-level chain listed child-first
def c4raw : List RawNode := [⟨0, [1], 0⟩, ⟨1, [2], 0⟩, ⟨2, [], 0⟩]

def c4dag : List RNode := rewrite 5 5 c4raw

instance : IsTotal RNode (fun a b : RNode => a.level ≤ b.level) :=
  ⟨fun a b => Nat.le_total a.level b.level⟩

instance : IsTrans RNode (fun a b : RNode => a.level ≤ b.level) :=
  ⟨fun _ _ _ hab hbc => Nat.le_trans hab hbc⟩

def w5dag : List RNode := [⟨"X", "FUSION", [], 0, 2⟩, ⟨"Y", "FUSION", [], 0, 2⟩]

namespace Hetero

/-- A queue task dict: type is EDGE / UPDATE / FUSION; src is only meaningful for EDGE. -/
structure Task where
  ttype : String
  src : String
  id : String
  mec : Nat
  slack : Int
deriving Repr, DecidableEq

/-- An in-flight PE or NFU event. -/
structure Event where
  etype : String
  target : String
  finish : Nat
  startPc : Nat
  mec : Nat
deriving Repr, DecidableEq

structure NodeInfo where
  ntype : String
  mec : Nat
  parents : List String
deriving Repr, DecidableEq

/-- Python dict assignment d[k] = v: overwrite in place or append a new key. -/
def dinsert {β : Type} (l : List (String × β)) (k : String) (v : β) : List (String × β) :=
  if l.any (fun p => p.1 = k) then l.map (fun p => if p.1 = k then (k, v) else p)
  else l ++ [(k, v)]

/-- Python d.get(k, dflt). -/
def dget {β : Type} (l : List (String × β)) (k : String) (dflt : β) : β :=
  match l.find? (fun p => p.1 = k) with
  | some p => p.2
  | none => dflt

/-- defaultdict(list) append used for adj_list. -/
def adjAdd (l : List (String × List String)) (k : String) (v : String) :
    List (String × List String) :=
  if l.any (fun p => p.1 = k) then
    l.map (fun p => if p.1 = k then (p.1, p.2 ++ [v]) else p)
  else l ++ [(k, [v])]

structure SchedCfg where
  peLimit : Nat
  info : List (String × NodeInfo)
  adj : List (String × List String)
  total : Nat
deriving Repr

def mecLookup (m : List (String × Nat)) (x : String) : Nat := dget m x 99999

/-- One node of _build_graph: extend node_info and adj_list. -/
def buildStep (mecm : List (String × Nat))
    (acc : List (String × NodeInfo) × List (String × List String)) (item : RNode) :
    List (String × NodeInfo) × List (String × List String) :=
  (dinsert acc.1 item.id ⟨item.type, mecLookup mecm item.id, item.parents⟩,
   item.parents.foldl (fun a p => adjAdd a p item.id) acc.2)

/-- _build_graph: node_info, adj_list. -/
def buildCfg (dag : List RNode) (mecm : List (String × Nat)) (pe : Nat) : SchedCfg :=
  let r := dag.foldl (buildStep mecm) ([], [])
  ⟨pe, r.1, r.2, dag.length⟩

def infoOf (cfg : SchedCfg) (x : String) : NodeInfo := dget cfg.info x ⟨"", 99999, []⟩

def adjOf (cfg : SchedCfg) (x : String) : List String := dget cfg.adj x []

structure SchedState where
  currentLc : Nat
  pc : Nat
  finished : List String
  finishedThisLc : List String
  nodesFinishedLastLc : List String
  optionalQ : List Task
  mandatoryQ : List Task
  peEvents : List Event
  nfuEvents : List Event
  freePes : Int
  nfuBusyTimer : Nat
  remDep : List (String × Int)
  fusionRem : List (String × Int)
  statsPe : Int
  statsNfu : Nat
  statsTotal : Nat
  stdoutLog : List String
deriving Repr, DecidableEq

/-- node_remaining_dependency_count (non-FUSION) and fusion_remaining_parents (FUSION). -/
def initState (dag : List RNode) (pe : Nat) : SchedState :=
  let rem := dag.foldl
    (fun a item => if item.type = "FUSION" then a
                   else dinsert a item.id (item.parents.length : Int)) []
  let fus := dag.foldl
    (fun a item => if item.type = "FUSION" then dinsert a item.id (item.parents.length : Int)
                   else a) []
  ⟨0, 0, [], [], [], [], [], [], [], (pe : Int), 0, rem, fus, 0, 0, 0, []⟩

def remGet (s : SchedState) (x : String) : Int := dget s.remDep x 0

def fusGet (s : SchedState) (x : String) : Int := dget s.fusionRem x 0

def calcSlack (cfg : SchedCfg) (s : SchedState) (tid : String) : Int :=
  ((infoOf cfg tid).mec : Int) - (s.currentLc : Int) - remGet s tid

/-- fusion_remaining_parents decrement for a FUSION child. -/
def fusionDecStep (cfg : SchedCfg) (s : SchedState) (c : String) : SchedState :=
  if (infoOf cfg c).ntype = "FUSION" then
    {s with fusionRem := dinsert s.fusionRem c (dget s.fusionRem c 0 - 1)}
  else s

/-- set.add plus fusion-parent decrement for FUSION children. -/
def markFinished (cfg : SchedCfg) (s : SchedState) (nid : String) : SchedState :=
  let f := if s.finished.contains nid then s.finished else s.finished ++ [nid]
  (adjOf cfg nid).foldl (fusionDecStep cfg) {s with finished := f}

def handleCompletion (cfg : SchedCfg) (s : SchedState) (e : Event) : SchedState :=
  if e.etype = "EDGE" then
    let r := dget s.remDep e.target 0 - 1
    let s := {s with remDep := dinsert s.remDep e.target r}
    if (infoOf cfg e.target).ntype = "PARTIAL" then
      (if r = 0 then markFinished cfg s e.target else s)
    else s
  else if e.etype = "UPDATE" ∨ e.etype = "FUSION" then markFinished cfg s e.target
  else s

structure DAcc where
  s : SchedState
  locked : List String
  kept : List Task
deriving Repr

/-- _try_dispatch; on failure the task is appended to kept (the rebuilt queue). -/
def tryDispatch (track : Bool) (a : DAcc) (t : Task) : DAcc :=
  if a.locked.contains t.id then {a with kept := a.kept ++ [t]}
  else if t.ttype = "FUSION" then
    if a.s.nfuBusyTimer = 0 then
      let e : Event := ⟨"FUSION", t.id, a.s.pc + 2, a.s.pc, t.mec⟩
      let s1 := {a.s with nfuBusyTimer := 1, nfuEvents := a.s.nfuEvents ++ [e]}
      let s2 : SchedState := if track then {s1 with finishedThisLc := s1.finishedThisLc ++ [t.id]} else s1
      {a with s := s2}
    else {a with kept := a.kept ++ [t]}
  else if t.ttype = "EDGE" ∨ t.ttype = "UPDATE" then
    if a.s.freePes > 0 then
      let e : Event := ⟨t.ttype, t.id, a.s.pc + 1, a.s.pc, t.mec⟩
      let s1 := {a.s with freePes := a.s.freePes - 1, peEvents := a.s.peEvents ++ [e]}
      let s2 : SchedState := if t.ttype = "UPDATE" ∧ track then
          {s1 with finishedThisLc := s1.finishedThisLc ++ [t.id]} else s1
      {a with s := s2, locked := a.locked ++ [t.id]}
    else {a with kept := a.kept ++ [t]}
  else {a with kept := a.kept ++ [t]}

/-- Retire loop over one event list: completed events are handled in order,
survivors are kept in order. -/
def retireFold (cfg : SchedCfg) (pcv : Nat) (evs : List Event) (s : SchedState) :
    SchedState × List Event :=
  evs.foldl
    (fun (acc : SchedState × List Event) e =>
      if e.finish ≤ pcv then (handleCompletion cfg acc.1 e, acc.2)
      else (acc.1, acc.2 ++ [e])) (s, [])

/-- Mandatory issue loop; Update/Fusion dispatches count as node completion. -/
def mandFold (tasks : List Task) (a : DAcc) : DAcc :=
  tasks.foldl (fun a t => tryDispatch (t.ttype = "UPDATE" ∨ t.ttype = "FUSION") a t) a

/-- Optional issue loop; only tried while a PE is free. -/
def optFold (tasks : List Task) (a : DAcc) : DAcc :=
  tasks.foldl
    (fun a t => if a.s.freePes > 0 then tryDispatch false a t
                else {a with kept := a.kept ++ [t]}) a

/-- Retire phase of one PC: advance pc, retire due PE then NFU events, recompute
free PEs, decrement the NFU busy timer. -/
def retirePhase (cfg : SchedCfg) (s0 : SchedState) : SchedState :=
  let s : SchedState := {s0 with pc := s0.pc + 1}
  let pr := retireFold cfg s.pc s.peEvents s
  let s : SchedState :=
    {pr.1 with peEvents := pr.2, freePes := (cfg.peLimit : Int) - (pr.2.length : Int)}
  let nr := retireFold cfg s.pc s.nfuEvents s
  let s : SchedState := {nr.1 with nfuEvents := nr.2}
  let s2 : SchedState :=
    if s.nfuBusyTimer > 0 then {s with nfuBusyTimer := s.nfuBusyTimer - 1} else s
  s2

/-- Issue phase of one PC: mandatory tasks sorted by slack, then optional tasks
sorted by (slack, mec), under the per-target lock and resource checks. -/
def issuePhase (s : SchedState) : SchedState :=
  let locked0 := s.peEvents.map (·.target)
  let sortedMand := List.insertionSort (fun a b : Task => a.slack ≤ b.slack) s.mandatoryQ
  let a1 := mandFold sortedMand ⟨{s with mandatoryQ := []}, locked0, []⟩
  let s : SchedState := {a1.s with mandatoryQ := a1.kept}
  let sortedOpt := List.insertionSort
    (fun a b : Task => a.slack < b.slack ∨ (a.slack = b.slack ∧ a.mec ≤ b.mec)) s.optionalQ
  let a2 := optFold sortedOpt ⟨{s with optionalQ := []}, a1.locked, []⟩
  {a2.s with optionalQ := a2.kept}

/-- _record_log: utilisation statistics at the end of a PC. -/
def recordStats (cfg : SchedCfg) (s : SchedState) : SchedState :=
  {s with statsPe := s.statsPe + ((cfg.peLimit : Int) - s.freePes),
          statsNfu := s.statsNfu + (if s.nfuBusyTimer > 0 then 1 else 0),
          statsTotal := s.pc}

/-- One PC: retire, issue, record. -/
def pcIter (cfg : SchedCfg) (s0 : SchedState) : SchedState :=
  recordStats cfg (issuePhase (retirePhase cfg s0))

/-- tasks_by_target: defaultdict(list) grouping in encounter order. -/
def ggroups (q : List Task) : List (String × List Task) :=
  q.foldl
    (fun (g : List (String × List Task)) t =>
      if g.any (fun p => p.1 = t.id) then
        g.map (fun p => if p.1 = t.id then (p.1, p.2 ++ [t]) else p)
      else g ++ [(t.id, [t])]) []

/-- One target group of Step C: stamp the slack, promote the first task when the
slack is non-positive, keep the rest optional. -/
def promBody (cfg : SchedCfg) (s : SchedState) (g : String × List Task) : SchedState :=
  let sl := calcSlack cfg s g.1
  let ts := g.2.map (fun t => {t with slack := sl})
  if sl ≤ 0 then
    match ts with
    | [] => s
    | t0 :: rest => {s with mandatoryQ := s.mandatoryQ ++ [t0],
                            optionalQ := s.optionalQ ++ rest}
  else {s with optionalQ := s.optionalQ ++ ts}

def stepC (cfg : SchedCfg) (s : SchedState) : SchedState :=
  (ggroups s.optionalQ).foldl (promBody cfg) {s with optionalQ := []}

/-- Step A: release edge tasks of nodes finished in the previous LC. -/
def releaseEdges (cfg : SchedCfg) (s : SchedState) : SchedState :=
  s.nodesFinishedLastLc.foldl
    (fun s src =>
      (adjOf cfg src).foldl
        (fun s child =>
          if (infoOf cfg child).ntype = "FUSION" then s
          else {s with optionalQ :=
            s.optionalQ ++ [⟨"EDGE", src, child, (infoOf cfg child).mec, 0⟩]}) s) s

/-- Step B: deadline promotion of ready Normal/Fusion nodes whose MEC has passed. -/
def deadlinePromote (cfg : SchedCfg) (s : SchedState) : SchedState :=
  cfg.info.foldl
    (fun s pr =>
      let nid := pr.1
      let inf := pr.2
      if s.finished.contains nid then s
      else if inf.mec ≤ s.currentLc then
        let isReady :=
          if inf.ntype = "FUSION" then fusGet s nid = 0
          else if inf.ntype = "NORMAL" then remGet s nid = 0
          else False
        if isReady then
          let inQ := s.mandatoryQ.any
            (fun t => t.id = nid ∧ (t.ttype = "UPDATE" ∨ t.ttype = "FUSION"))
          let inRun := (s.peEvents ++ s.nfuEvents).any
            (fun e => e.target = nid ∧ (e.etype = "UPDATE" ∨ e.etype = "FUSION"))
          if ¬inQ ∧ ¬inRun then
            {s with mandatoryQ := s.mandatoryQ ++
              [⟨(if inf.ntype = "FUSION" then "FUSION" else "UPDATE"), "", nid, inf.mec, -999⟩]}
          else s
        else s
      else s) s

/-- LC boundary: lc += 1, batch edge release, deadline promotion (Step B), slack
promotion (Step C). -/
def lcBoundary (cfg : SchedCfg) (s0 : SchedState) : SchedState :=
  let s : SchedState := {s0 with currentLc := s0.currentLc + 1, finishedThisLc := []}
  let s : SchedState := releaseEdges cfg s
  let s : SchedState := {s with nodesFinishedLastLc := []}
  stepC cfg (deadlinePromote cfg s)

/-- Inner PC loop: run at least one PC; stop when the mandatory queue is empty.
Returns false when fuel ran out (model artifact only). -/
def pcLoop (cfg : SchedCfg) : Nat → SchedState → SchedState × Bool
  | 0, s => (s, false)
  | fuel + 1, s =>
    let s1 := pcIter cfg s
    if s1.mandatoryQ.isEmpty then (s1, true) else pcLoop cfg fuel s1

/-- One LC iteration: boundary, inner PC loop, flush finished batch. -/
def lcIter (cfg : SchedCfg) (s : SchedState) : SchedState × Bool :=
  let s1 := lcBoundary cfg s
  let r := pcLoop cfg (s1.mandatoryQ.length + 1) s1
  ({r.1 with nodesFinishedLastLc := r.1.finishedThisLc}, r.2)

/-- Outer loop of run(); 5000 is max_lc_limit.  The Bool is true when the Python
loop exited (normally or via the cap) and false only on model fuel exhaustion. -/
def schedLoop (cfg : SchedCfg) : Nat → SchedState → SchedState × Bool
  | 0, s => (s, false)
  | fuel + 1, s =>
    if s.finished.length < cfg.total then
      if s.currentLc > 5000 then
        ({s with stdoutLog := s.stdoutLog ++ ["timeout " ++ toString s.currentLc]}, true)
      else
        let r := lcIter cfg s
        if r.2 then schedLoop cfg fuel r.1 else (r.1, false)
    else (s, true)

def runScheduler (dag : List RNode) (mecm : List (String × Nat)) (pe : Nat) :
    SchedState × Bool :=
  schedLoop (buildCfg dag mecm pe) 6000 (initState dag pe)

end Hetero

-- S1 end-to-end: mec map from the compiler, then run the scheduler
def s1mec : List (String × Nat) := [("0", compMec s1dag "0"), ("1", compMec s1dag "1"), ("2", compMec s1dag "2")]

-- C7 counterexample: two root fusion nodes, both due at LC 1
def c7dag : List RNode := [⟨"A", "FUSION", [], 0, 2⟩, ⟨"B", "FUSION", [], 0, 2⟩]

def c7mec : List (String × Nat) := [("A", 1), ("B", 1)]

def c7cfg := Hetero.buildCfg c7dag c7mec 10

def c7s2 := Hetero.pcIter c7cfg (Hetero.pcIter c7cfg (Hetero.lcBoundary c7cfg (Hetero.initState c7dag 10)))

namespace Hetero

/-- Fields untouched by completion handling (everything except finished, remDep,
fusionRem). -/
def coreEq (s s' : SchedState) : Prop :=
  s'.currentLc = s.currentLc ∧ s'.pc = s.pc ∧ s'.finishedThisLc = s.finishedThisLc ∧
  s'.nodesFinishedLastLc = s.nodesFinishedLastLc ∧ s'.optionalQ = s.optionalQ ∧
  s'.mandatoryQ = s.mandatoryQ ∧ s'.peEvents = s.peEvents ∧ s'.nfuEvents = s.nfuEvents ∧
  s'.freePes = s.freePes ∧ s'.nfuBusyTimer = s.nfuBusyTimer ∧ s'.statsPe = s.statsPe ∧
  s'.statsNfu = s.statsNfu ∧ s'.statsTotal = s.statsTotal ∧ s'.stdoutLog = s.stdoutLog

/-- What a single _try_dispatch attempt can do to the accumulator. -/
structure StepOk (a r : DAcc) (t : Task) : Prop where
  lc : r.s.currentLc = a.s.currentLc
  pcv : r.s.pc = a.s.pc
  fin : r.s.finished = a.s.finished
  nfl : r.s.nodesFinishedLastLc = a.s.nodesFinishedLastLc
  opt : r.s.optionalQ = a.s.optionalQ
  mand : r.s.mandatoryQ = a.s.mandatoryQ
  rem : r.s.remDep = a.s.remDep
  fus : r.s.fusionRem = a.s.fusionRem
  stp : r.s.statsPe = a.s.statsPe
  stn : r.s.statsNfu = a.s.statsNfu
  stt : r.s.statsTotal = a.s.statsTotal
  sout : r.s.stdoutLog = a.s.stdoutLog
  nfu : (r.s.nfuEvents = a.s.nfuEvents ∧ r.s.nfuBusyTimer = a.s.nfuBusyTimer) ∨
        (t.ttype = "FUSION" ∧ a.s.nfuBusyTimer = 0 ∧ r.s.nfuBusyTimer = 1 ∧
          r.s.nfuEvents = a.s.nfuEvents ++ [⟨"FUSION", t.id, a.s.pc + 2, a.s.pc, t.mec⟩])
  pe : (r.s.peEvents = a.s.peEvents ∧ r.s.freePes = a.s.freePes) ∨
       ((t.ttype = "EDGE" ∨ t.ttype = "UPDATE") ∧ 0 < a.s.freePes ∧
         r.s.freePes = a.s.freePes - 1 ∧
         r.s.peEvents = a.s.peEvents ++ [⟨t.ttype, t.id, a.s.pc + 1, a.s.pc, t.mec⟩])
  lockd : r.locked = a.locked ∨ r.locked = a.locked ++ [t.id]
  kept : r.kept = a.kept ∨ r.kept = a.kept ++ [t]
  ftl : r.s.finishedThisLc = a.s.finishedThisLc ∨
        r.s.finishedThisLc = a.s.finishedThisLc ++ [t.id]

/-- What a whole issue fold can do. -/
structure FoldOk (a0 r : DAcc) (tasks : List Task) : Prop where
  lc : r.s.currentLc = a0.s.currentLc
  pcv : r.s.pc = a0.s.pc
  fin : r.s.finished = a0.s.finished
  nfl : r.s.nodesFinishedLastLc = a0.s.nodesFinishedLastLc
  opt : r.s.optionalQ = a0.s.optionalQ
  mand : r.s.mandatoryQ = a0.s.mandatoryQ
  rem : r.s.remDep = a0.s.remDep
  fus : r.s.fusionRem = a0.s.fusionRem
  stp : r.s.statsPe = a0.s.statsPe
  stn : r.s.statsNfu = a0.s.statsNfu
  stt : r.s.statsTotal = a0.s.statsTotal
  sout : r.s.stdoutLog = a0.s.stdoutLog
  nfu : (r.s.nfuEvents = a0.s.nfuEvents ∧ r.s.nfuBusyTimer = a0.s.nfuBusyTimer) ∨
        (∃ t ∈ tasks, t.ttype = "FUSION" ∧ a0.s.nfuBusyTimer = 0 ∧ r.s.nfuBusyTimer = 1 ∧
          r.s.nfuEvents = a0.s.nfuEvents ++ [⟨"FUSION", t.id, a0.s.pc + 2, a0.s.pc, t.mec⟩])
  peSum : (r.s.peEvents.length : Int) + r.s.freePes =
          (a0.s.peEvents.length : Int) + a0.s.freePes
  peNonneg : 0 ≤ a0.s.freePes → 0 ≤ r.s.freePes
  peMem : ∀ e ∈ r.s.peEvents, e ∈ a0.s.peEvents ∨
          ∃ t ∈ tasks, (t.ttype = "EDGE" ∨ t.ttype = "UPDATE") ∧
            e = ⟨t.ttype, t.id, a0.s.pc + 1, a0.s.pc, t.mec⟩
  keptMem : ∀ x ∈ r.kept, x ∈ a0.kept ∨ x ∈ tasks
  keptLen : r.kept.length ≤ a0.kept.length + tasks.length
  ftlMem : ∀ x ∈ r.s.finishedThisLc, x ∈ a0.s.finishedThisLc ∨ ∃ t ∈ tasks, x = t.id

/-- Equal on every field except the two task queues. -/
def eqExceptQ (s s' : SchedState) : Prop :=
  s'.currentLc = s.currentLc ∧ s'.pc = s.pc ∧ s'.finished = s.finished ∧
  s'.finishedThisLc = s.finishedThisLc ∧ s'.nodesFinishedLastLc = s.nodesFinishedLastLc ∧
  s'.peEvents = s.peEvents ∧ s'.nfuEvents = s.nfuEvents ∧ s'.freePes = s.freePes ∧
  s'.nfuBusyTimer = s.nfuBusyTimer ∧ s'.remDep = s.remDep ∧ s'.fusionRem = s.fusionRem ∧
  s'.statsPe = s.statsPe ∧ s'.statsNfu = s.statsNfu ∧ s'.statsTotal = s.statsTotal ∧
  s'.stdoutLog = s.stdoutLog

/-- Classification of tasks that can sit in the optional queue after an LC
boundary: an old optional task or a freshly released edge task, possibly with a
restamped slack. -/
def EdgeShaped (cfg : SchedCfg) (s0 : SchedState) (t : Task) : Prop :=
  ∃ t0 : Task, (t = t0 ∨ ∃ sl : Int, t = {t0 with slack := sl}) ∧
    (t0 ∈ s0.optionalQ ∨ (t0.ttype = "EDGE" ∧ (∃ src, t0.id ∈ adjOf cfg src) ∧
      (infoOf cfg t0.id).ntype ≠ "FUSION"))

/-- Resource-state invariant maintained at every step boundary. -/
def InvRes (cfg : SchedCfg) (s : SchedState) : Prop :=
  s.peEvents.length ≤ cfg.peLimit ∧
  (∀ e ∈ s.peEvents, e.finish ≤ s.pc + 1) ∧
  s.nfuBusyTimer ≤ 1 ∧
  (∀ e ∈ s.nfuEvents, s.pc < e.finish ∧ e.finish ≤ s.pc + 2) ∧
  s.nfuEvents.Pairwise (fun x y => x.finish ≠ y.finish)

/-- All states the scheduler loop passes through, as closure under its step
functions. -/
inductive Reach (cfg : SchedCfg) (s0 : SchedState) : SchedState → Prop
  | refl : Reach cfg s0 s0
  | lcb {s : SchedState} : Reach cfg s0 s → Reach cfg s0 (lcBoundary cfg s)
  | pci {s : SchedState} : Reach cfg s0 s → Reach cfg s0 (pcIter cfg s)
  | flush {s : SchedState} : Reach cfg s0 s →
      Reach cfg s0 {s with nodesFinishedLastLc := s.finishedThisLc}
  | warn {s : SchedState} : Reach cfg s0 s →
      Reach cfg s0 {s with stdoutLog := s.stdoutLog ++ ["timeout " ++ toString s.currentLc]}

-- C9: a parentless PARTIAL node never finishes, so the run can only end via
-- the max_lc_limit cap
def c9dag : List RNode := [⟨"P", "PARTIAL", [], 0, 0⟩]

def c9mec : List (String × Nat) := [("P", 1)]

def c9cfg : SchedCfg := buildCfg c9dag c9mec 1

/-- The state after k idle LCs of the c9 run. -/
def idleState (k : Nat) : SchedState :=
  ⟨k, k, [], [], [], [], [], [], [], 1, 0, [("P", 0)], [], 0, 0, k, []⟩

/-- Queue/event/finished typing invariant protecting a PARTIAL node pid with no
incoming edges: UPDATE and FUSION work never targets a PARTIAL node, every task
id, event target and finished id lies in ids and differs from pid. -/
def InvTen (cfg : SchedCfg) (pid : String) (ids : List String) (s : SchedState) : Prop :=
  (∀ t ∈ s.optionalQ, t.ttype = "EDGE" ∧ t.id ∈ ids ∧ t.id ≠ pid) ∧
  (∀ t ∈ s.mandatoryQ,
    (t.ttype = "EDGE" ∨ ((t.ttype = "UPDATE" ∨ t.ttype = "FUSION") ∧
      (infoOf cfg t.id).ntype ≠ "PARTIAL")) ∧ t.id ∈ ids ∧ t.id ≠ pid) ∧
  (∀ e ∈ s.peEvents ++ s.nfuEvents,
    e.target ∈ ids ∧ e.target ≠ pid ∧
    ((e.etype = "UPDATE" ∨ e.etype = "FUSION") → (infoOf cfg e.target).ntype ≠ "PARTIAL")) ∧
  (∀ x ∈ s.finished, x ∈ ids ∧ x ≠ pid) ∧
  s.finished.Nodup

end Hetero

theorem range_slices_flatten {α : Type} (c : Nat) (l : List α) :
    ∀ k : Nat, ((List.range k).map (fun i => (l.drop (i * c)).take c)).flatten = l.take (k * c) := by
  intro k
  induction k with
  | zero => simp
  | succ k ih =>
    rw [List.range_succ, List.map_append, List.flatten_append, ih]
    simp only [List.map_cons, List.map_nil, List.flatten_cons, List.flatten_nil, List.append_nil]
    rw [Nat.succ_mul, List.take_add]

theorem chunks_flatten {α : Type} (c : Nat) (hc : 0 < c) (l : List α) :
    (chunks c l).flatten = l := by
  unfold chunks
  rw [if_neg (Nat.pos_iff_ne_zero.mp hc), range_slices_flatten]
  apply List.take_of_length_le
  rw [Nat.mul_comm]
  have hdm := Nat.div_add_mod (l.length + c - 1) c
  have hml := Nat.mod_lt (l.length + c - 1) hc
  omega

theorem chunks_length {α : Type} (c : Nat) (hc : 0 < c) (l : List α) :
    (chunks c l).length = (l.length + c - 1) / c := by
  unfold chunks
  rw [if_neg (Nat.pos_iff_ne_zero.mp hc)]
  simp

theorem chunks_mem_length {α : Type} (c : Nat) (hc : 0 < c) (l : List α) :
    ∀ ch ∈ chunks c l, 0 < ch.length ∧ ch.length ≤ c := by
  unfold chunks
  rw [if_neg (Nat.pos_iff_ne_zero.mp hc)]
  intro ch hch
  simp only [List.mem_map, List.mem_range] at hch
  obtain ⟨k, hk, rfl⟩ := hch
  have hkc : k * c < l.length := by
    have h1 : (k + 1) * c ≤ ((l.length + c - 1) / c) * c :=
      Nat.mul_le_mul_right c hk
    have h2 : ((l.length + c - 1) / c) * c ≤ l.length + c - 1 := Nat.div_mul_le_self _ _
    have h4 : (k + 1) * c = k * c + c := Nat.succ_mul k c
    have h5 : 0 < l.length := by
      rcases Nat.eq_zero_or_pos l.length with h0 | h0
      · exfalso
        rw [h0] at hk
        have h6 : (0 + c - 1) / c = 0 := Nat.div_eq_of_lt (by omega)
        omega
      · exact h0
    omega
  constructor
  · simp only [List.length_take, List.length_drop]
    omega
  · simp only [List.length_take]
    omega

theorem flatMap_eq_flatten_map {α β : Type} (f : α → List β) (l : List α) :
    l.flatMap f = (l.map f).flatten := by
  induction l with
  | nil => rfl
  | cons a l ih => simp [List.flatMap_cons, ih]

/-- C1: for every input node, the rewriter emits exactly one NORMAL node (same
stringified id, same ordered stringified parents, same level, cost =
|parents| + 1) when |parents| ≤ threshold; otherwise it emits
ceil(|parents|/chunk_size) PARTIAL nodes P_id_k whose concatenated parent
slices rebuild the original ordered parent list, each at the original level
with cost = slice length, followed by one FUSION node reusing the original id
with the ordered PARTIAL ids as parents, level + 1 and cost 2; per input node
the output order is Partials then Fusion/Normal, concatenated in input
order. -/
theorem rewriter_C1 (t c : Nat) (hc : 0 < c) (dag : List RawNode) :
    rewrite t c dag = (dag.map (rewriteNode t c)).flatten ∧
    ∀ n : RawNode,
      (n.parents.length ≤ t → rewriteNode t c n = [normalOf n] ∧ normalOf n =
        ⟨toString n.id, "NORMAL", n.parents.map toString, n.level, n.parents.length + 1⟩) ∧
      (t < n.parents.length →
        rewriteNode t c n = partialsOf c n ++ [fusionOf c n] ∧
        (partialsOf c n).length = (n.parents.length + c - 1) / c ∧
        ((partialsOf c n).map (·.parents)).flatten = n.parents.map toString ∧
        (partialsOf c n).map (·.id) = (List.range (partialsOf c n).length).map (pId n.id) ∧
        (∀ p ∈ partialsOf c n, p.type = "PARTIAL" ∧ p.level = n.level ∧
          p.cost = p.parents.length) ∧
        fusionOf c n = ⟨toString n.id, "FUSION", (partialsOf c n).map (·.id), n.level + 1, 2⟩) := by
  refine ⟨flatMap_eq_flatten_map _ _, fun n => ⟨fun h => ⟨by simp [rewriteNode, h], rfl⟩, fun h => ?_⟩⟩
  have hlen : (partialsOf c n).length = (chunks c n.parents).length := by
    simp [partialsOf]
  refine ⟨by simp [rewriteNode, Nat.not_le.mpr h], ?_, ?_, ?_, ?_, rfl⟩
  · rw [hlen, chunks_length c hc]
  · have h1 : (partialsOf c n).map (·.parents) =
        (chunks c n.parents).map (fun ch => ch.map toString) := by
      simp only [partialsOf, List.map_map]
      have := List.enum_map_snd (chunks c n.parents)
      calc ((chunks c n.parents).enum).map ((fun p : RNode => p.parents) ∘ fun kc =>
              (⟨pId n.id kc.1, "PARTIAL", kc.2.map toString, n.level, kc.2.length⟩ : RNode))
          = ((chunks c n.parents).enum).map ((fun ch => ch.map toString) ∘ Prod.snd) := rfl
        _ = (((chunks c n.parents).enum).map Prod.snd).map (fun ch => ch.map toString) := by
              rw [List.map_map]
        _ = (chunks c n.parents).map (fun ch => ch.map toString) := by rw [this]
    rw [h1]
    rw [← List.map_flatten, chunks_flatten c hc]
  · have h2 : (partialsOf c n).map (·.id) =
        (((chunks c n.parents).enum).map Prod.fst).map (pId n.id) := by
      simp only [partialsOf, List.map_map]; rfl
    rw [h2, List.enum_map_fst, hlen]
  · intro p hp
    simp only [partialsOf, List.mem_map] at hp
    obtain ⟨kc, _, rfl⟩ := hp
    exact ⟨rfl, rfl, by simp⟩

theorem rewriter_C1_witness :
    rewriteNode 5 5 ⟨7, [1,2,3,4,5,6,7,8,9,10,11,12], 3⟩ =
      partialsOf 5 ⟨7, [1,2,3,4,5,6,7,8,9,10,11,12], 3⟩ ++
        [fusionOf 5 ⟨7, [1,2,3,4,5,6,7,8,9,10,11,12], 3⟩] ∧
    (partialsOf 5 ⟨7, [1,2,3,4,5,6,7,8,9,10,11,12], 3⟩).length = 3 ∧
    rewriteNode 5 5 ⟨2, [9], 1⟩ = [normalOf ⟨2, [9], 1⟩] := by
  have h := rewriter_C1 5 5 (by decide) []
  refine ⟨((h.2 _).2 (by decide)).1, ?_, ((h.2 ⟨2, [9], 1⟩).1 (by decide)).1⟩
  have h2 := ((h.2 ⟨7, [1,2,3,4,5,6,7,8,9,10,11,12], 3⟩).2 (by decide)).2.1
  rw [h2]; decide

theorem updMap_self (f : String → Nat) (x : String) (v : Nat) : updMap f x v x = v := by
  simp [updMap]

theorem updMap_ne (f : String → Nat) (x y : String) (v : Nat) (h : y ≠ x) :
    updMap f x v y = f y := by
  simp [updMap, h]

theorem compStep_fst_ne (s : (String → Nat) × Nat) (n : RNode) (x : String) (hx : x ≠ n.id) :
    (compStep s n).1 x = s.1 x := by
  unfold compStep
  split <;> exact updMap_ne _ _ _ _ hx

theorem foldl_fst_ne (l : List RNode) (s : (String → Nat) × Nat) (x : String)
    (hx : x ∉ l.map (·.id)) : (l.foldl compStep s).1 x = s.1 x := by
  induction l generalizing s with
  | nil => rfl
  | cons a l ih =>
    simp only [List.map_cons, List.mem_cons, not_or] at hx
    rw [List.foldl_cons, ih _ hx.2, compStep_fst_ne _ _ _ hx.1]

theorem compStep_snd_mono (s : (String → Nat) × Nat) (n : RNode) : s.2 ≤ (compStep s n).2 := by
  unfold compStep
  split
  · dsimp only
    exact Nat.le_succ_of_le (Nat.le_max_right _ _)
  · exact Nat.le_refl _

theorem foldl_snd_mono (l : List RNode) (s : (String → Nat) × Nat) :
    s.2 ≤ (l.foldl compStep s).2 := by
  induction l generalizing s with
  | nil => exact Nat.le_refl _
  | cons a l ih => exact Nat.le_trans (compStep_snd_mono s a) (ih _)

theorem accum_ge_init : ∀ (l : List Nat) (t0 : Nat),
    t0 ≤ l.foldl (fun t a => Nat.max a t + 1) t0
  | [], _ => Nat.le_refl _
  | a :: l, t0 =>
    Nat.le_trans (Nat.le_succ_of_le (Nat.le_max_right a t0)) (accum_ge_init l (Nat.max a t0 + 1))

theorem accum_ge_mem : ∀ (l : List Nat) (t0 a : Nat), a ∈ l →
    a + 1 ≤ l.foldl (fun t a => Nat.max a t + 1) t0
  | b :: l, t0, a, h => by
    rcases List.mem_cons.mp h with rfl | h
    · exact Nat.le_trans (Nat.succ_le_succ (Nat.le_max_left a t0)) (accum_ge_init l (Nat.max a t0 + 1))
    · exact accum_ge_mem l _ a h

theorem calcPeMec_ge (ty : String) (pm : List Nat) (a : Nat) (ha : a ∈ pm) :
    a + 1 ≤ calcPeMec ty pm := by
  match pm, ha with
  | b :: l, ha =>
    unfold calcPeMec
    have hmem : a ∈ List.insertionSort (fun a b => a ≤ b) (b :: l) :=
      (List.mem_insertionSort _).mpr ha
    have h1 := accum_ge_mem _ 0 a hmem
    dsimp only
    split <;> omega

theorem foldl_max_ge_init : ∀ (l : List Nat) (b : Nat), b ≤ l.foldl Nat.max b
  | [], _ => Nat.le_refl _
  | a :: l, b => Nat.le_trans (Nat.le_max_left b a) (by
      simpa [Nat.max_comm] using foldl_max_ge_init l (Nat.max a b))

theorem foldl_max_ge_mem : ∀ (l : List Nat) (b a : Nat), a ∈ l → a ≤ l.foldl Nat.max b
  | c :: l, b, a, h => by
    rcases List.mem_cons.mp h with rfl | h
    · exact Nat.le_trans (Nat.le_max_right b a) (foldl_max_ge_init l (Nat.max b a))
    · exact foldl_max_ge_mem l _ a h

theorem dataReady_ge (pm : List Nat) (a : Nat) (ha : a ∈ pm) : a ≤ dataReadyOf pm := by
  match pm, ha with
  | b :: l, ha => exact foldl_max_ge_mem (b :: l) 0 a ha

theorem compStep_parent_lt (s : (String → Nat) × Nat) (n : RNode) (p : String)
    (hp : p ∈ n.parents) : s.1 p + 1 ≤ (compStep s n).1 n.id := by
  have hmem : s.1 p ∈ n.parents.map s.1 := List.mem_map_of_mem s.1 hp
  unfold compStep
  split
  · dsimp only
    rw [updMap_self]
    exact Nat.le_trans (Nat.succ_le_succ (dataReady_ge _ _ hmem))
      (Nat.le_trans (Nat.succ_le_succ (Nat.le_max_left _ _)) (Nat.le_succ _))
  · dsimp only
    rw [updMap_self]
    exact calcPeMec_ge _ _ _ hmem

theorem dictInsert_not_mem (l : List RNode) (n : RNode) (h : n.id ∉ l.map (·.id)) :
    dictInsert l n = l ++ [n] := by
  have hc : ¬ (l.any (fun m => m.id = n.id) = true) := by
    rw [List.any_eq_true]
    rintro ⟨m, hm, heq⟩
    rw [decide_eq_true_eq] at heq
    exact h (heq ▸ List.mem_map_of_mem (·.id) hm)
  unfold dictInsert
  rw [if_neg hc]

theorem foldl_dictInsert_eq (dag : List RNode) : ∀ acc : List RNode,
    ((acc ++ dag).map (·.id)).Nodup → dag.foldl dictInsert acc = acc ++ dag := by
  induction dag with
  | nil => intro acc _; simp
  | cons n rest ih =>
    intro acc h
    have hn : n.id ∉ acc.map (·.id) := by
      simp only [List.map_append, List.nodup_append, List.map_cons, List.nodup_cons] at h
      intro hmem
      exact (h.2.2 hmem) (List.mem_cons_self _ _)
    rw [List.foldl_cons, dictInsert_not_mem acc n hn, ih (acc ++ [n]) (by simpa using h)]
    simp

theorem buildNodes_eq (dag : List RNode) (h : (dag.map (·.id)).Nodup) : buildNodes dag = dag := by
  have := foldl_dictInsert_eq dag [] (by simpa using h)
  simpa [buildNodes] using this

theorem sortedNodes_perm (dag : List RNode) (h : (dag.map (·.id)).Nodup) :
    (sortedNodes dag).Perm dag := by
  unfold sortedNodes
  rw [buildNodes_eq dag h]
  exact List.perm_insertionSort _ _

theorem sortedNodes_sorted (dag : List RNode) :
    (sortedNodes dag).Sorted (fun a b : RNode => a.level ≤ b.level) :=
  List.sorted_insertionSort _ _

theorem sortedNodes_nodup (dag : List RNode) (h : (dag.map (·.id)).Nodup) :
    ((sortedNodes dag).map (·.id)).Nodup :=
  (((sortedNodes_perm dag h).map (·.id)).nodup_iff).mpr h

theorem mem_split_nodup {l : List RNode} {n : RNode} (h : (l.map (·.id)).Nodup) (hm : n ∈ l) :
    ∃ l1 l2, l = l1 ++ n :: l2 ∧ n.id ∉ l1.map (·.id) ∧ n.id ∉ l2.map (·.id) := by
  obtain ⟨l1, l2, rfl⟩ := List.append_of_mem hm
  refine ⟨l1, l2, rfl, ?_, ?_⟩
  · simp only [List.map_append, List.map_cons, List.nodup_append, List.nodup_cons] at h
    intro hmem
    exact (h.2.2 hmem) (List.mem_cons_self _ _)
  · simp only [List.map_append, List.map_cons, List.nodup_append, List.nodup_cons] at h
    exact h.2.1.1

/-- Workhorse: the final MEC of a node equals the value assigned at its processing
step, and the state then already holds the final MECs of all its parents. -/
theorem run_final_eq (S : List RNode) (s0 : (String → Nat) × Nat)
    (hnd : (S.map (·.id)).Nodup)
    (hsort : S.Sorted (fun a b : RNode => a.level ≤ b.level))
    (n : RNode) (hn : n ∈ S)
    (hpar : ∀ p ∈ n.parents, ∃ m ∈ S, m.id = p ∧ m.level < n.level) :
    ∃ l1 l2, S = l1 ++ n :: l2 ∧
      (S.foldl compStep s0).1 n.id = (compStep (l1.foldl compStep s0) n).1 n.id ∧
      ∀ p ∈ n.parents, (l1.foldl compStep s0).1 p = (S.foldl compStep s0).1 p := by
  obtain ⟨l1, l2, rfl, hn1, hn2⟩ := mem_split_nodup hnd hn
  refine ⟨l1, l2, rfl, ?_, ?_⟩
  · rw [List.foldl_append, List.foldl_cons]
    exact foldl_fst_ne l2 _ n.id hn2
  · intro p hp
    obtain ⟨m, hmS, rfl, hml⟩ := hpar p hp
    have hm1 : m ∈ l1 := by
      rcases List.mem_append.mp hmS with h | h
      · exact h
      · rcases List.mem_cons.mp h with rfl | h
        · omega
        · exfalso
          have hrel : n.level ≤ m.level := by
            have := (List.pairwise_append.mp hsort).2.1
            exact (List.pairwise_cons.mp this).1 m h
          omega
    have hnotin : m.id ∉ (n :: l2).map (·.id) := by
      simp only [List.map_cons, List.mem_cons, not_or]
      constructor
      · intro heq
        exact hn1 (heq ▸ List.mem_map_of_mem (·.id) hm1)
      · intro hmem
        simp only [List.map_append, List.map_cons, List.nodup_append, List.nodup_cons] at hnd
        exact (hnd.2.2 (List.mem_map_of_mem (·.id) hm1)) (List.mem_cons_of_mem _ hmem)
    rw [List.foldl_append]
    exact (foldl_fst_ne (n :: l2) _ m.id hnotin).symm

theorem compStep_pe_eq (s : (String → Nat) × Nat) (n : RNode) (h : n.type ≠ "FUSION") :
    compStep s n = (updMap s.1 n.id (calcPeMec n.type (n.parents.map s.1)), s.2) := by
  unfold compStep
  rw [if_neg h]

theorem compStep_fusion_eq (s : (String → Nat) × Nat) (n : RNode) (h : n.type = "FUSION") :
    compStep s n =
      (updMap s.1 n.id (Nat.max (dataReadyOf (n.parents.map s.1)) s.2 + 2),
       Nat.max (dataReadyOf (n.parents.map s.1)) s.2 + 1) := by
  unfold compStep
  rw [if_pos h]

/-- C2: for every non-FUSION node, each compiler step writes the serial PE
accumulation value (sort parent MECs ascending, fold t := max(a, t) + 1, plus
one Update cycle for NORMAL nodes), and under unique ids with strictly
increasing levels along edges the final MEC of every NORMAL/PARTIAL node
equals that formula applied to its parents' final MECs, with MEC = 1 for a
node without parents. -/
theorem compiler_C2 (dag : List RNode)
    (hnd : (dag.map (·.id)).Nodup)
    (hpar : ∀ n ∈ dag, ∀ p ∈ n.parents, ∃ m ∈ dag, m.id = p ∧ m.level < n.level) :
    (∀ (s : (String → Nat) × Nat) (n : RNode), n.type ≠ "FUSION" →
      compStep s n = (updMap s.1 n.id (calcPeMec n.type (n.parents.map s.1)), s.2)) ∧
    ∀ n ∈ dag, n.type ≠ "FUSION" →
      compMec dag n.id = calcPeMec n.type (n.parents.map (compMec dag)) ∧
      (n.parents = [] → compMec dag n.id = 1) := by
  refine ⟨compStep_pe_eq, fun n hn hty => ?_⟩
  have hndS := sortedNodes_nodup dag hnd
  have hperm := sortedNodes_perm dag hnd
  have hnS : n ∈ sortedNodes dag := hperm.mem_iff.mpr hn
  have hparS : ∀ p ∈ n.parents, ∃ m ∈ sortedNodes dag, m.id = p ∧ m.level < n.level := by
    intro p hp
    obtain ⟨m, hm, h1, h2⟩ := hpar n hn p hp
    exact ⟨m, hperm.mem_iff.mpr hm, h1, h2⟩
  obtain ⟨l1, l2, hS, heq, hstab⟩ :=
    run_final_eq (sortedNodes dag) (fun _ => 0, 0) hndS (sortedNodes_sorted dag) n hnS hparS
  have hmain : compMec dag n.id = calcPeMec n.type (n.parents.map (compMec dag)) := by
    unfold compMec compilerRun
    rw [heq, compStep_pe_eq _ _ hty]
    dsimp only
    rw [updMap_self]
    congr 1
    apply List.map_congr_left
    intro p hp
    exact hstab p hp
  exact ⟨hmain, fun hempty => by rw [hmain, hempty]; rfl⟩

theorem compiler_C2_witness :
    compMec s1dag "1" =
      calcPeMec "NORMAL" (["0"].map (compMec s1dag)) ∧ compMec s1dag "1" = 3 := by
  have h := (compiler_C2 s1dag (by decide) (by decide)).2
    ⟨"1", "NORMAL", ["0"], 1, 2⟩ (by decide) (by decide)
  exact ⟨h.1, by decide⟩

/-- C3: every FUSION compiler step computes start = max(data_ready,
scoreboard), writes scoreboard := start + 1 and mec := start + 2; on scenario
S2 (a 12-parent node split with threshold = chunk = 5) the PARTIAL MECs are
6, 6, 3, the FUSION MEC is 8 and the final scoreboard is 7. -/
theorem compiler_C3 :
    (∀ (s : (String → Nat) × Nat) (n : RNode), n.type = "FUSION" →
      compStep s n =
        (updMap s.1 n.id (Nat.max (dataReadyOf (n.parents.map s.1)) s.2 + 2),
         Nat.max (dataReadyOf (n.parents.map s.1)) s.2 + 1)) ∧
    compMec s2dag "P_0_0" = 6 ∧ compMec s2dag "P_0_1" = 6 ∧ compMec s2dag "P_0_2" = 3 ∧
    compMec s2dag "0" = 8 ∧ compScore s2dag = 7 := by
  refine ⟨compStep_fusion_eq, ?_, ?_, ?_, ?_, ?_⟩ <;> decide

theorem compiler_C3_witness :
    compStep (fun _ => 0, 0) ⟨"f", "FUSION", [], 0, 2⟩ = (updMap (fun _ => 0) "f" 2, 1) := by
  have h := compiler_C3.1 (fun _ => 0, 0) ⟨"f", "FUSION", [], 0, 2⟩ rfl
  rw [h]
  exact rfl

/-- C4 counterexample: for the same-level chain 2→1→0 listed child-first, a
level-compatible topological order exists (parent.level ≤ child.level for
every edge), yet the compiled MECs violate mec(child) ≥ mec(parent) + 1, so
the claim is false with non-strict level compatibility. -/
theorem compiler_C4_counterexample :
    (∀ n ∈ c4dag, ∀ p ∈ n.parents, ∃ m ∈ c4dag, m.id = p ∧ m.level ≤ n.level) ∧
    ¬ (∀ n ∈ c4dag, ∀ p ∈ n.parents, compMec c4dag p + 1 ≤ compMec c4dag n.id) := by
  constructor
  · decide
  · decide

/-- C4 (amended): when every parent sits at a strictly lower level than its
child (which the rewriter guarantees), the compiled MEC map satisfies
mec(child) ≥ mec(parent) + 1 for every edge. -/
theorem compiler_C4_amended (dag : List RNode)
    (hnd : (dag.map (·.id)).Nodup)
    (hpar : ∀ n ∈ dag, ∀ p ∈ n.parents, ∃ m ∈ dag, m.id = p ∧ m.level < n.level) :
    ∀ n ∈ dag, ∀ p ∈ n.parents, compMec dag p + 1 ≤ compMec dag n.id := by
  intro n hn p hp
  have hndS := sortedNodes_nodup dag hnd
  have hperm := sortedNodes_perm dag hnd
  have hnS : n ∈ sortedNodes dag := hperm.mem_iff.mpr hn
  have hparS : ∀ q ∈ n.parents, ∃ m ∈ sortedNodes dag, m.id = q ∧ m.level < n.level := by
    intro q hq
    obtain ⟨m, hm, h1, h2⟩ := hpar n hn q hq
    exact ⟨m, hperm.mem_iff.mpr hm, h1, h2⟩
  obtain ⟨l1, l2, hS, heq, hstab⟩ :=
    run_final_eq (sortedNodes dag) (fun _ => 0, 0) hndS (sortedNodes_sorted dag) n hnS hparS
  unfold compMec compilerRun
  rw [heq, ← hstab p hp]
  exact compStep_parent_lt _ n p hp

theorem compiler_C4_witness : compMec s1dag "0" + 1 ≤ compMec s1dag "1" :=
  compiler_C4_amended s1dag (by decide) (by decide) ⟨"1", "NORMAL", ["0"], 1, 2⟩ (by decide)
    "0" (by decide)

/-- Two fusions processed in order: the later one starts strictly later. -/
theorem fusion_order (s0 : (String → Nat) × Nat) (l1 l2 l3 : List RNode) (x y : RNode)
    (hx : x.type = "FUSION") (hy : y.type = "FUSION")
    (hx2 : x.id ∉ l2.map (·.id)) (hxy : x.id ≠ y.id)
    (hx3 : x.id ∉ l3.map (·.id)) (hy3 : y.id ∉ l3.map (·.id)) :
    ((l1 ++ x :: (l2 ++ y :: l3)).foldl compStep s0).1 x.id + 1 ≤
      ((l1 ++ x :: (l2 ++ y :: l3)).foldl compStep s0).1 y.id ∧
    2 ≤ ((l1 ++ x :: (l2 ++ y :: l3)).foldl compStep s0).1 x.id := by
  have hfold : (l1 ++ x :: (l2 ++ y :: l3)).foldl compStep s0 =
      l3.foldl compStep
        (compStep ((l2.foldl compStep (compStep (l1.foldl compStep s0) x))) y) := by
    rw [List.foldl_append, List.foldl_cons, List.foldl_append, List.foldl_cons]
  set s1 := l1.foldl compStep s0 with hs1
  set s2 := compStep s1 x with hs2
  set s3 := l2.foldl compStep s2 with hs3
  set s4 := compStep s3 y with hs4
  have hx_val : s2.1 x.id = Nat.max (dataReadyOf (x.parents.map s1.1)) s1.2 + 2 := by
    rw [hs2, compStep_fusion_eq s1 x hx]
    exact updMap_self _ _ _
  have hx_scr : s2.2 = Nat.max (dataReadyOf (x.parents.map s1.1)) s1.2 + 1 := by
    rw [hs2, compStep_fusion_eq s1 x hx]
  have h3scr : s2.2 ≤ s3.2 := foldl_snd_mono l2 s2
  have h3val : s3.1 x.id = s2.1 x.id := foldl_fst_ne l2 s2 x.id hx2
  have hy_val : s4.1 y.id = Nat.max (dataReadyOf (y.parents.map s3.1)) s3.2 + 2 := by
    rw [hs4, compStep_fusion_eq s3 y hy]
    exact updMap_self _ _ _
  have hy_start : s3.2 ≤ Nat.max (dataReadyOf (y.parents.map s3.1)) s3.2 := Nat.le_max_right _ _
  have h4x : s4.1 x.id = s3.1 x.id := by
    rw [hs4]
    exact compStep_fst_ne s3 y x.id hxy
  have hfx : ((l1 ++ x :: (l2 ++ y :: l3)).foldl compStep s0).1 x.id = s4.1 x.id := by
    rw [hfold]
    exact foldl_fst_ne l3 s4 x.id hx3
  have hfy : ((l1 ++ x :: (l2 ++ y :: l3)).foldl compStep s0).1 y.id = s4.1 y.id := by
    rw [hfold]
    exact foldl_fst_ne l3 s4 y.id hy3
  rw [hfx, hfy, h4x, h3val, hy_val, hx_val]
  omega

/-- Split a list at two distinct members, in one order or the other. -/
theorem two_mem_split {l : List RNode} {A B : RNode}
    (hnd : (l.map (·.id)).Nodup) (hA : A ∈ l) (hB : B ∈ l) (hne : A.id ≠ B.id) :
    (∃ l1 l2 l3, l = l1 ++ A :: (l2 ++ B :: l3)) ∨
    (∃ l1 l2 l3, l = l1 ++ B :: (l2 ++ A :: l3)) := by
  obtain ⟨l1, l2, rfl⟩ := List.append_of_mem hA
  rcases List.mem_append.mp hB with h | h
  · obtain ⟨u, v, rfl⟩ := List.append_of_mem h
    right
    exact ⟨u, v, l2, by simp⟩
  · rcases List.mem_cons.mp h with rfl | h
    · exact absurd rfl hne
    · obtain ⟨u, v, rfl⟩ := List.append_of_mem h
      left
      exact ⟨l1, u, v, by simp⟩

theorem nodup_ids_parts {l1 l2 l3 : List RNode} {x y : RNode}
    (hnd : ((l1 ++ x :: (l2 ++ y :: l3)).map (·.id)).Nodup) :
    x.id ∉ l2.map (·.id) ∧ x.id ≠ y.id ∧ x.id ∉ l3.map (·.id) ∧ y.id ∉ l3.map (·.id) := by
  simp only [List.map_append, List.map_cons, List.nodup_append, List.nodup_cons,
    List.mem_append, List.mem_cons] at hnd
  refine ⟨?_, ?_, ?_, ?_⟩
  · intro hmem
    exact hnd.2.1.1 (Or.inl hmem)
  · intro heq
    exact hnd.2.1.1 (Or.inr (Or.inl heq))
  · intro hmem
    exact hnd.2.1.1 (Or.inr (Or.inr hmem))
  · exact hnd.2.1.2.2.1.1

/-- C5: for two distinct FUSION nodes of a compiled DAG with unique ids, the
start times (mec - 2) differ by at least 1: the scoreboard serialises the
NFU. -/
theorem compiler_C5 (dag : List RNode) (hnd : (dag.map (·.id)).Nodup)
    (A B : RNode) (hA : A ∈ dag) (hB : B ∈ dag)
    (hAf : A.type = "FUSION") (hBf : B.type = "FUSION") (hne : A ≠ B) :
    compMec dag A.id - 2 + 1 ≤ compMec dag B.id - 2 ∨
    compMec dag B.id - 2 + 1 ≤ compMec dag A.id - 2 := by
  have hid : A.id ≠ B.id := by
    intro h
    exact hne (List.inj_on_of_nodup_map hnd hA hB h)
  have hndS := sortedNodes_nodup dag hnd
  have hperm := sortedNodes_perm dag hnd
  have hAS : A ∈ sortedNodes dag := hperm.mem_iff.mpr hA
  have hBS : B ∈ sortedNodes dag := hperm.mem_iff.mpr hB
  unfold compMec compilerRun
  rcases two_mem_split hndS hAS hBS hid with ⟨l1, l2, l3, hS⟩ | ⟨l1, l2, l3, hS⟩
  · left
    rw [hS] at hndS ⊢
    obtain ⟨p1, p2, p3, p4⟩ := nodup_ids_parts hndS
    have h := fusion_order (fun _ => 0, 0) l1 l2 l3 A B hAf hBf p1 p2 p3 p4
    omega
  · right
    rw [hS] at hndS ⊢
    obtain ⟨p1, p2, p3, p4⟩ := nodup_ids_parts hndS
    have h := fusion_order (fun _ => 0, 0) l1 l2 l3 B A hBf hAf p1 p2 p3 p4
    omega

theorem compiler_C5_witness :
    compMec w5dag "X" - 2 + 1 ≤ compMec w5dag "Y" - 2 ∨
    compMec w5dag "Y" - 2 + 1 ≤ compMec w5dag "X" - 2 :=
  compiler_C5 w5dag (by decide) ⟨"X", "FUSION", [], 0, 2⟩ ⟨"Y", "FUSION", [], 0, 2⟩
    (by decide) (by decide) rfl rfl (by decide)

namespace Hetero

theorem coreEq_refl (s : SchedState) : coreEq s s := by
  unfold coreEq
  exact ⟨rfl, rfl, rfl, rfl, rfl, rfl, rfl, rfl, rfl, rfl, rfl, rfl, rfl, rfl⟩

theorem coreEq_trans {s1 s2 s3 : SchedState} (h1 : coreEq s1 s2) (h2 : coreEq s2 s3) :
    coreEq s1 s3 := by
  unfold coreEq at *
  obtain ⟨a1, a2, a3, a4, a5, a6, a7, a8, a9, a10, a11, a12, a13, a14⟩ := h1
  obtain ⟨b1, b2, b3, b4, b5, b6, b7, b8, b9, b10, b11, b12, b13, b14⟩ := h2
  exact ⟨b1.trans a1, b2.trans a2, b3.trans a3, b4.trans a4, b5.trans a5, b6.trans a6,
    b7.trans a7, b8.trans a8, b9.trans a9, b10.trans a10, b11.trans a11, b12.trans a12,
    b13.trans a13, b14.trans a14⟩

theorem fusionDecStep_core (cfg : SchedCfg) (s : SchedState) (c : String) :
    coreEq s (fusionDecStep cfg s c) := by
  unfold fusionDecStep
  split
  · exact ⟨rfl, rfl, rfl, rfl, rfl, rfl, rfl, rfl, rfl, rfl, rfl, rfl, rfl, rfl⟩
  · exact coreEq_refl _

theorem fusionDecFold_core (cfg : SchedCfg) :
    ∀ (children : List String) (s : SchedState),
      coreEq s (children.foldl (fusionDecStep cfg) s)
  | [], s => coreEq_refl s
  | c :: rest, s => by
    rw [List.foldl_cons]
    exact coreEq_trans (fusionDecStep_core cfg s c) (fusionDecFold_core cfg rest _)

theorem markFinished_core (cfg : SchedCfg) (s : SchedState) (nid : String) :
    coreEq s (markFinished cfg s nid) := by
  unfold markFinished
  have h1 : coreEq s {s with finished :=
      (if s.finished.contains nid then s.finished else s.finished ++ [nid])} :=
    ⟨rfl, rfl, rfl, rfl, rfl, rfl, rfl, rfl, rfl, rfl, rfl, rfl, rfl, rfl⟩
  exact coreEq_trans h1 (fusionDecFold_core cfg _ _)

theorem handleCompletion_core (cfg : SchedCfg) (s : SchedState) (e : Event) :
    coreEq s (handleCompletion cfg s e) := by
  unfold handleCompletion
  split
  · dsimp only
    split
    · split
      · have h1 : coreEq s {s with remDep :=
            (dinsert s.remDep e.target (dget s.remDep e.target 0 - 1))} :=
          ⟨rfl, rfl, rfl, rfl, rfl, rfl, rfl, rfl, rfl, rfl, rfl, rfl, rfl, rfl⟩
        exact coreEq_trans h1 (markFinished_core cfg _ _)
      · exact ⟨rfl, rfl, rfl, rfl, rfl, rfl, rfl, rfl, rfl, rfl, rfl, rfl, rfl, rfl⟩
    · exact ⟨rfl, rfl, rfl, rfl, rfl, rfl, rfl, rfl, rfl, rfl, rfl, rfl, rfl, rfl⟩
  · split
    · exact markFinished_core cfg _ _
    · exact coreEq_refl _

theorem fusionDecFold_finished (cfg : SchedCfg) :
    ∀ (children : List String) (s : SchedState),
      (children.foldl (fusionDecStep cfg) s).finished = s.finished
  | [], _ => rfl
  | c :: rest, s => by
    rw [List.foldl_cons, fusionDecFold_finished cfg rest _]
    unfold fusionDecStep
    split <;> rfl

theorem fusionDecFold_remDep (cfg : SchedCfg) :
    ∀ (children : List String) (s : SchedState),
      (children.foldl (fusionDecStep cfg) s).remDep = s.remDep
  | [], _ => rfl
  | c :: rest, s => by
    rw [List.foldl_cons, fusionDecFold_remDep cfg rest _]
    unfold fusionDecStep
    split <;> rfl

theorem markFinished_finished (cfg : SchedCfg) (s : SchedState) (nid : String) :
    (markFinished cfg s nid).finished =
      (if s.finished.contains nid then s.finished else s.finished ++ [nid]) := by
  unfold markFinished
  rw [fusionDecFold_finished]

theorem markFinished_remDep (cfg : SchedCfg) (s : SchedState) (nid : String) :
    (markFinished cfg s nid).remDep = s.remDep := by
  unfold markFinished
  rw [fusionDecFold_remDep]

theorem markFinished_mem_finished (cfg : SchedCfg) (s : SchedState) (nid x : String)
    (hx : x ∈ (markFinished cfg s nid).finished) : x ∈ s.finished ∨ x = nid := by
  rw [markFinished_finished] at hx
  split at hx
  · exact Or.inl hx
  · rcases List.mem_append.mp hx with h | h
    · exact Or.inl h
    · exact Or.inr (List.mem_singleton.mp h)

theorem markFinished_finished_sub (cfg : SchedCfg) (s : SchedState) (nid x : String)
    (hx : x ∈ s.finished) : x ∈ (markFinished cfg s nid).finished := by
  rw [markFinished_finished]
  split
  · exact hx
  · exact List.mem_append_left _ hx

theorem markFinished_nodup (cfg : SchedCfg) (s : SchedState) (nid : String)
    (h : s.finished.Nodup) : (markFinished cfg s nid).finished.Nodup := by
  rw [markFinished_finished]
  split
  · exact h
  · rename_i hc
    rw [List.nodup_append]
    refine ⟨h, List.nodup_singleton _, ?_⟩
    intro a ha hb
    rw [List.mem_singleton] at hb
    subst hb
    exact hc (List.elem_iff.mpr ha)

theorem handleCompletion_mem_finished (cfg : SchedCfg) (s : SchedState) (e : Event) (x : String)
    (hx : x ∈ (handleCompletion cfg s e).finished) : x ∈ s.finished ∨ x = e.target := by
  unfold handleCompletion at hx
  split at hx
  · dsimp only at hx
    split at hx
    · split at hx
      · rcases markFinished_mem_finished _ _ _ _ hx with h | h
        · exact Or.inl h
        · exact Or.inr h
      · exact Or.inl hx
    · exact Or.inl hx
  · split at hx
    · rcases markFinished_mem_finished _ _ _ _ hx with h | h
      · exact Or.inl h
      · exact Or.inr h
    · exact Or.inl hx

theorem stepOk_id (a : DAcc) (t : Task) : StepOk a {a with kept := a.kept ++ [t]} t :=
  ⟨rfl, rfl, rfl, rfl, rfl, rfl, rfl, rfl, rfl, rfl, rfl, rfl,
   Or.inl ⟨rfl, rfl⟩, Or.inl ⟨rfl, rfl⟩, Or.inl rfl, Or.inr rfl, Or.inl rfl⟩

theorem tryDispatch_stepOk (tr : Bool) (a : DAcc) (t : Task) :
    StepOk a (tryDispatch tr a t) t := by
  unfold tryDispatch
  split
  · exact stepOk_id a t
  · split
    · rename_i hfu
      split
      · rename_i htm
        refine ⟨?_, ?_, ?_, ?_, ?_, ?_, ?_, ?_, ?_, ?_, ?_, ?_, ?_, ?_, ?_, ?_, ?_⟩ <;>
          dsimp only <;> try split
        all_goals first
          | rfl
          | exact Or.inr ⟨hfu, htm, rfl, rfl⟩
          | exact Or.inl ⟨rfl, rfl⟩
          | exact Or.inl rfl
          | exact Or.inr rfl
      · exact stepOk_id a t
    · split
      · rename_i hty
        split
        · rename_i hfree
          refine ⟨?_, ?_, ?_, ?_, ?_, ?_, ?_, ?_, ?_, ?_, ?_, ?_, ?_, ?_, ?_, ?_, ?_⟩ <;>
            dsimp only <;> try split
          all_goals first
            | rfl
            | exact Or.inr ⟨hty, hfree, rfl, rfl⟩
            | exact Or.inl ⟨rfl, rfl⟩
            | exact Or.inl rfl
            | exact Or.inr rfl
        · exact stepOk_id a t
      · exact stepOk_id a t

theorem foldOk_nil (a0 : DAcc) : FoldOk a0 a0 [] :=
  ⟨rfl, rfl, rfl, rfl, rfl, rfl, rfl, rfl, rfl, rfl, rfl, rfl, Or.inl ⟨rfl, rfl⟩,
   rfl, id, fun e he => Or.inl he, fun x hx => Or.inl hx, Nat.le_add_right _ _,
   fun x hx => Or.inl hx⟩

theorem foldOk_of_stepOk (g : DAcc → Task → DAcc) (hg : ∀ a t, StepOk a (g a t) t) :
    ∀ (tasks : List Task) (a0 : DAcc), FoldOk a0 (tasks.foldl g a0) tasks
  | [], a0 => foldOk_nil a0
  | t :: rest, a0 => by
    rw [List.foldl_cons]
    have h1 := hg a0 t
    have h2 := foldOk_of_stepOk g hg rest (g a0 t)
    set a1 := g a0 t
    refine ⟨h2.lc.trans h1.lc, h2.pcv.trans h1.pcv, h2.fin.trans h1.fin,
      h2.nfl.trans h1.nfl, h2.opt.trans h1.opt, h2.mand.trans h1.mand,
      h2.rem.trans h1.rem, h2.fus.trans h1.fus, h2.stp.trans h1.stp,
      h2.stn.trans h1.stn, h2.stt.trans h1.stt, h2.sout.trans h1.sout, ?_, ?_, ?_, ?_, ?_, ?_, ?_⟩
    · rcases h2.nfu with ⟨e2, t2⟩ | ⟨u, hu, hty, h0, h1', he⟩
      · rcases h1.nfu with ⟨e1, t1⟩ | ⟨hty, h0, h1', he⟩
        · exact Or.inl ⟨e2.trans e1, t2.trans t1⟩
        · exact Or.inr ⟨t, List.mem_cons_self _ _, hty, h0, t2.trans h1', e2.trans he⟩
      · rcases h1.nfu with ⟨e1, t1⟩ | ⟨hty1, h01, h11, he1⟩
        · refine Or.inr ⟨u, List.mem_cons_of_mem _ hu, hty, ?_, h1', ?_⟩
          · rw [← t1]; exact h0
          · rw [he, e1, h1.pcv]
        · rw [h11] at h0
          exact absurd h0 one_ne_zero
    · rw [h2.peSum]
      rcases h1.pe with ⟨e1, f1⟩ | ⟨_, hpos, hf, hpe⟩
      · rw [e1, f1]
      · rw [hf, hpe]
        simp only [List.length_append, List.length_cons, List.length_nil]
        push_cast
        ring
    · intro hge
      apply h2.peNonneg
      rcases h1.pe with ⟨_, f1⟩ | ⟨_, hpos, hf, _⟩
      · rw [f1]; exact hge
      · rw [hf]; omega
    · intro e he
      rcases h2.peMem e he with h | ⟨u, hu, huty, hue⟩
      · rcases h1.pe with ⟨e1, _⟩ | ⟨hty, _, _, hpe⟩
        · rw [e1] at h
          exact Or.inl h
        · rw [hpe] at h
          rcases List.mem_append.mp h with h | h
          · exact Or.inl h
          · rw [List.mem_singleton] at h
            exact Or.inr ⟨t, List.mem_cons_self _ _, hty, h⟩
      · exact Or.inr ⟨u, List.mem_cons_of_mem _ hu, huty, by rw [hue, h1.pcv]⟩
    · intro x hx
      rcases h2.keptMem x hx with h | h
      · rcases h1.kept with k1 | k1
        · rw [k1] at h
          exact Or.inl h
        · rw [k1] at h
          rcases List.mem_append.mp h with h | h
          · exact Or.inl h
          · rw [List.mem_singleton] at h
            exact Or.inr (h ▸ List.mem_cons_self _ _)
      · exact Or.inr (List.mem_cons_of_mem _ h)
    · have hk1 : a1.kept.length ≤ a0.kept.length + 1 := by
        rcases h1.kept with k1 | k1 <;> rw [k1]
        · omega
        · simp
      calc (List.foldl g a1 rest).kept.length ≤ a1.kept.length + rest.length := h2.keptLen
        _ ≤ a0.kept.length + 1 + rest.length := by omega
        _ = a0.kept.length + (t :: rest).length := by simp [List.length_cons]; omega
    · intro x hx
      rcases h2.ftlMem x hx with h | ⟨u, hu, hx'⟩
      · rcases h1.ftl with f1 | f1
        · rw [f1] at h
          exact Or.inl h
        · rw [f1] at h
          rcases List.mem_append.mp h with h | h
          · exact Or.inl h
          · rw [List.mem_singleton] at h
            exact Or.inr ⟨t, List.mem_cons_self _ _, h⟩
      · exact Or.inr ⟨u, List.mem_cons_of_mem _ hu, hx'⟩

theorem mandFold_foldOk (tasks : List Task) (a0 : DAcc) : FoldOk a0 (mandFold tasks a0) tasks :=
  foldOk_of_stepOk _ (fun a t => tryDispatch_stepOk _ a t) tasks a0

theorem optFold_foldOk (tasks : List Task) (a0 : DAcc) : FoldOk a0 (optFold tasks a0) tasks := by
  refine foldOk_of_stepOk _ (fun a t => ?_) tasks a0
  dsimp only
  split
  · exact tryDispatch_stepOk _ a t
  · exact stepOk_id a t

theorem retire_aux (cfg : SchedCfg) (pcv : Nat) :
    ∀ (evs : List Event) (s : SchedState) (acc : List Event),
      coreEq s (evs.foldl (fun (acc : SchedState × List Event) e =>
          if e.finish ≤ pcv then (handleCompletion cfg acc.1 e, acc.2)
          else (acc.1, acc.2 ++ [e])) (s, acc)).1 ∧
      (evs.foldl (fun (acc : SchedState × List Event) e =>
          if e.finish ≤ pcv then (handleCompletion cfg acc.1 e, acc.2)
          else (acc.1, acc.2 ++ [e])) (s, acc)).2 =
        acc ++ evs.filter (fun e => ¬ (e.finish ≤ pcv)) ∧
      (∀ x ∈ (evs.foldl (fun (acc : SchedState × List Event) e =>
          if e.finish ≤ pcv then (handleCompletion cfg acc.1 e, acc.2)
          else (acc.1, acc.2 ++ [e])) (s, acc)).1.finished,
        x ∈ s.finished ∨ ∃ e ∈ evs, x = e.target)
  | [], s, acc => by
    refine ⟨coreEq_refl s, by simp, fun x hx => Or.inl hx⟩
  | e :: evs, s, acc => by
    rw [List.foldl_cons]
    by_cases he : e.finish ≤ pcv
    · rw [if_pos he]
      obtain ⟨h1, h2, h3⟩ := retire_aux cfg pcv evs (handleCompletion cfg s e) acc
      refine ⟨coreEq_trans (handleCompletion_core cfg s e) h1, ?_, ?_⟩
      · rw [h2, List.filter_cons]
        simp [he]
      · intro x hx
        rcases h3 x hx with h | ⟨e', he', hx'⟩
        · rcases handleCompletion_mem_finished cfg s e x h with h | h
          · exact Or.inl h
          · exact Or.inr ⟨e, List.mem_cons_self _ _, h⟩
        · exact Or.inr ⟨e', List.mem_cons_of_mem _ he', hx'⟩
    · rw [if_neg he]
      obtain ⟨h1, h2, h3⟩ := retire_aux cfg pcv evs s (acc ++ [e])
      refine ⟨h1, ?_, ?_⟩
      · rw [h2, List.filter_cons]
        simp [he]
      · intro x hx
        rcases h3 x hx with h | ⟨e', he', hx'⟩
        · exact Or.inl h
        · exact Or.inr ⟨e', List.mem_cons_of_mem _ he', hx'⟩

theorem retireFold_spec (cfg : SchedCfg) (pcv : Nat) (evs : List Event) (s : SchedState) :
    coreEq s (retireFold cfg pcv evs s).1 ∧
    (retireFold cfg pcv evs s).2 = evs.filter (fun e => ¬ (e.finish ≤ pcv)) ∧
    (∀ x ∈ (retireFold cfg pcv evs s).1.finished,
      x ∈ s.finished ∨ ∃ e ∈ evs, x = e.target) := by
  unfold retireFold
  have h := retire_aux cfg pcv evs s []
  simpa using h

theorem handleCompletion_nodup (cfg : SchedCfg) (s : SchedState) (e : Event)
    (h : s.finished.Nodup) : (handleCompletion cfg s e).finished.Nodup := by
  unfold handleCompletion
  split
  · dsimp only
    split
    · split
      · exact markFinished_nodup cfg _ _ h
      · exact h
    · exact h
  · split
    · exact markFinished_nodup cfg _ _ h
    · exact h

theorem retire_aux_nodup (cfg : SchedCfg) (pcv : Nat) :
    ∀ (evs : List Event) (s : SchedState) (acc : List Event),
      s.finished.Nodup →
      (evs.foldl (fun (acc : SchedState × List Event) e =>
          if e.finish ≤ pcv then (handleCompletion cfg acc.1 e, acc.2)
          else (acc.1, acc.2 ++ [e])) (s, acc)).1.finished.Nodup
  | [], s, acc, h => h
  | e :: evs, s, acc, h => by
    rw [List.foldl_cons]
    by_cases he : e.finish ≤ pcv
    · rw [if_pos he]
      exact retire_aux_nodup cfg pcv evs _ acc (handleCompletion_nodup cfg s e h)
    · rw [if_neg he]
      exact retire_aux_nodup cfg pcv evs s _ h

theorem retireFold_nodup (cfg : SchedCfg) (pcv : Nat) (evs : List Event) (s : SchedState)
    (h : s.finished.Nodup) : (retireFold cfg pcv evs s).1.finished.Nodup :=
  retire_aux_nodup cfg pcv evs s [] h

theorem retirePhase_spec (cfg : SchedCfg) (s0 : SchedState) :
    (retirePhase cfg s0).currentLc = s0.currentLc ∧
    (retirePhase cfg s0).pc = s0.pc + 1 ∧
    (retirePhase cfg s0).peEvents = s0.peEvents.filter (fun e => ¬ (e.finish ≤ s0.pc + 1)) ∧
    (retirePhase cfg s0).nfuEvents = s0.nfuEvents.filter (fun e => ¬ (e.finish ≤ s0.pc + 1)) ∧
    (retirePhase cfg s0).freePes =
      (cfg.peLimit : Int) - ((retirePhase cfg s0).peEvents.length : Int) ∧
    (retirePhase cfg s0).nfuBusyTimer = s0.nfuBusyTimer - 1 ∧
    (retirePhase cfg s0).mandatoryQ = s0.mandatoryQ ∧
    (retirePhase cfg s0).optionalQ = s0.optionalQ ∧
    (retirePhase cfg s0).finishedThisLc = s0.finishedThisLc ∧
    (retirePhase cfg s0).nodesFinishedLastLc = s0.nodesFinishedLastLc ∧
    (retirePhase cfg s0).stdoutLog = s0.stdoutLog ∧
    (∀ x ∈ (retirePhase cfg s0).finished,
      x ∈ s0.finished ∨ ∃ e ∈ s0.peEvents ++ s0.nfuEvents, x = e.target) ∧
    (s0.finished.Nodup → (retirePhase cfg s0).finished.Nodup) := by
  unfold retirePhase
  dsimp only
  obtain ⟨c1, f1, m1⟩ := retireFold_spec cfg (s0.pc + 1) s0.peEvents {s0 with pc := s0.pc + 1}
  obtain ⟨a1, a2, a3, a4, a5, a6, a7, a8, a9, a10, a11, a12, a13, a14⟩ := c1
  set pr := retireFold cfg (s0.pc + 1) s0.peEvents {s0 with pc := s0.pc + 1} with hpr
  set s1 : SchedState :=
    {pr.1 with peEvents := pr.2, freePes := (cfg.peLimit : Int) - (pr.2.length : Int)} with hs1
  obtain ⟨c2, f2, m2⟩ := retireFold_spec cfg s1.pc s1.nfuEvents s1
  obtain ⟨b1, b2, b3, b4, b5, b6, b7, b8, b9, b10, b11, b12, b13, b14⟩ := c2
  set nr := retireFold cfg s1.pc s1.nfuEvents s1 with hnr
  set s2 : SchedState := {nr.1 with nfuEvents := nr.2} with hs2
  have hs1pc : s1.pc = s0.pc + 1 := a2
  have hs1nfu : s1.nfuEvents = s0.nfuEvents := a8
  have hs2pc : s2.pc = s0.pc + 1 := by rw [hs2]; exact b2.trans hs1pc
  have key : ∀ r : SchedState,
      (r = if s2.nfuBusyTimer > 0 then {s2 with nfuBusyTimer := s2.nfuBusyTimer - 1} else s2) →
      r.currentLc = s2.currentLc ∧ r.pc = s2.pc ∧ r.peEvents = s2.peEvents ∧
      r.nfuEvents = s2.nfuEvents ∧ r.freePes = s2.freePes ∧
      r.nfuBusyTimer = s2.nfuBusyTimer - 1 ∧ r.mandatoryQ = s2.mandatoryQ ∧
      r.optionalQ = s2.optionalQ ∧ r.finishedThisLc = s2.finishedThisLc ∧
      r.nodesFinishedLastLc = s2.nodesFinishedLastLc ∧ r.stdoutLog = s2.stdoutLog ∧
      r.finished = s2.finished := by
    intro r hr
    subst hr
    split
    · exact ⟨rfl, rfl, rfl, rfl, rfl, rfl, rfl, rfl, rfl, rfl, rfl, rfl⟩
    · refine ⟨rfl, rfl, rfl, rfl, rfl, ?_, rfl, rfl, rfl, rfl, rfl, rfl⟩
      omega
  obtain ⟨k1, k2, k3, k4, k5, k6, k7, k8, k9, k10, k11, k12⟩ := key _ rfl
  refine ⟨?_, ?_, ?_, ?_, ?_, ?_, ?_, ?_, ?_, ?_, ?_, ?_, ?_⟩
  · rw [k1, hs2]
    exact b1.trans a1
  · rw [k2, hs2pc]
  · rw [k3, hs2]
    show nr.1.peEvents = _
    rw [b7]
    show pr.2 = _
    rw [f1]
  · rw [k4, hs2]
    show nr.2 = _
    rw [f2, hs1nfu, hs1pc]
  · rw [k5, k3, hs2]
    show nr.1.freePes = _
    rw [b9]
    show (cfg.peLimit : Int) - (pr.2.length : Int) = _
    have : nr.1.peEvents = pr.2 := b7
    rw [this]
  · rw [k6, hs2]
    show nr.1.nfuBusyTimer - 1 = _
    rw [b10]
    show pr.1.nfuBusyTimer - 1 = _
    rw [a10]
  · rw [k7, hs2]
    show nr.1.mandatoryQ = _
    rw [b6]
    show pr.1.mandatoryQ = _
    rw [a6]
  · rw [k8, hs2]
    show nr.1.optionalQ = _
    rw [b5]
    show pr.1.optionalQ = _
    rw [a5]
  · rw [k9, hs2]
    show nr.1.finishedThisLc = _
    rw [b3]
    show pr.1.finishedThisLc = _
    rw [a3]
  · rw [k10, hs2]
    show nr.1.nodesFinishedLastLc = _
    rw [b4]
    show pr.1.nodesFinishedLastLc = _
    rw [a4]
  · rw [k11, hs2]
    show nr.1.stdoutLog = _
    rw [b14]
    show pr.1.stdoutLog = _
    rw [a14]
  · intro x hx
    rw [k12, hs2] at hx
    have hx' : x ∈ nr.1.finished := hx
    rcases m2 x hx' with h | ⟨e, he, hx''⟩
    · have : x ∈ pr.1.finished := h
      rcases m1 x this with h' | ⟨e, he, hx''⟩
      · exact Or.inl h'
      · exact Or.inr ⟨e, List.mem_append_left _ he, hx''⟩
    · rw [hs1nfu] at he
      exact Or.inr ⟨e, List.mem_append_right _ he, hx''⟩
  · intro hnd
    rw [k12, hs2]
    show nr.1.finished.Nodup
    apply retireFold_nodup
    show pr.1.finished.Nodup
    exact retireFold_nodup _ _ _ _ hnd

theorem issuePhase_spec (s0 : SchedState) :
    (issuePhase s0).currentLc = s0.currentLc ∧
    (issuePhase s0).pc = s0.pc ∧
    (issuePhase s0).finished = s0.finished ∧
    (issuePhase s0).nodesFinishedLastLc = s0.nodesFinishedLastLc ∧
    (issuePhase s0).remDep = s0.remDep ∧
    (issuePhase s0).fusionRem = s0.fusionRem ∧
    (issuePhase s0).stdoutLog = s0.stdoutLog ∧
    ((issuePhase s0).nfuEvents = s0.nfuEvents ∧
        (issuePhase s0).nfuBusyTimer = s0.nfuBusyTimer ∨
      ∃ t, (t ∈ s0.mandatoryQ ∨ t ∈ s0.optionalQ) ∧ t.ttype = "FUSION" ∧
        s0.nfuBusyTimer = 0 ∧ (issuePhase s0).nfuBusyTimer = 1 ∧
        (issuePhase s0).nfuEvents =
          s0.nfuEvents ++ [⟨"FUSION", t.id, s0.pc + 2, s0.pc, t.mec⟩]) ∧
    (((issuePhase s0).peEvents.length : Int) + (issuePhase s0).freePes =
      (s0.peEvents.length : Int) + s0.freePes) ∧
    (0 ≤ s0.freePes → 0 ≤ (issuePhase s0).freePes) ∧
    (∀ e ∈ (issuePhase s0).peEvents, e ∈ s0.peEvents ∨
      ∃ t, (t ∈ s0.mandatoryQ ∨ t ∈ s0.optionalQ) ∧
        (t.ttype = "EDGE" ∨ t.ttype = "UPDATE") ∧
        e = ⟨t.ttype, t.id, s0.pc + 1, s0.pc, t.mec⟩) ∧
    (∀ t ∈ (issuePhase s0).mandatoryQ, t ∈ s0.mandatoryQ) ∧
    (∀ t ∈ (issuePhase s0).optionalQ, t ∈ s0.optionalQ) ∧
    (∀ x ∈ (issuePhase s0).finishedThisLc, x ∈ s0.finishedThisLc ∨
      ∃ t, (t ∈ s0.mandatoryQ ∨ t ∈ s0.optionalQ) ∧ x = t.id) := by
  unfold issuePhase
  dsimp only
  set sortedMand :=
    List.insertionSort (fun a b : Task => a.slack ≤ b.slack) s0.mandatoryQ with hsm
  have hsmMem : ∀ t ∈ sortedMand, t ∈ s0.mandatoryQ := by
    intro t ht
    exact (List.mem_insertionSort _).mp ht
  set A0 : DAcc := ⟨{s0 with mandatoryQ := []}, s0.peEvents.map (·.target), []⟩ with hA0
  have F1 := mandFold_foldOk sortedMand A0
  set a1 := mandFold sortedMand A0 with ha1
  set s1 : SchedState := {a1.s with mandatoryQ := a1.kept} with hs1
  have hs1opt : s1.optionalQ = s0.optionalQ := F1.opt
  set sortedOpt := List.insertionSort
    (fun a b : Task => a.slack < b.slack ∨ (a.slack = b.slack ∧ a.mec ≤ b.mec))
    s1.optionalQ with hso
  have hsoMem : ∀ t ∈ sortedOpt, t ∈ s0.optionalQ := by
    intro t ht
    rw [← hs1opt]
    exact (List.mem_insertionSort _).mp ht
  set B0 : DAcc := ⟨{s1 with optionalQ := []}, a1.locked, []⟩ with hB0
  have F2 := optFold_foldOk sortedOpt B0
  set a2 := optFold sortedOpt B0 with ha2
  have hB0s : B0.s.currentLc = s1.currentLc ∧ B0.s.pc = s1.pc ∧ B0.s.finished = s1.finished ∧
      B0.s.nodesFinishedLastLc = s1.nodesFinishedLastLc ∧ B0.s.remDep = s1.remDep ∧
      B0.s.fusionRem = s1.fusionRem ∧ B0.s.stdoutLog = s1.stdoutLog ∧
      B0.s.nfuEvents = s1.nfuEvents ∧ B0.s.nfuBusyTimer = s1.nfuBusyTimer ∧
      B0.s.peEvents = s1.peEvents ∧ B0.s.freePes = s1.freePes ∧
      B0.s.finishedThisLc = s1.finishedThisLc ∧ B0.s.mandatoryQ = s1.mandatoryQ :=
    ⟨rfl, rfl, rfl, rfl, rfl, rfl, rfl, rfl, rfl, rfl, rfl, rfl, rfl⟩
  refine ⟨?_, ?_, ?_, ?_, ?_, ?_, ?_, ?_, ?_, ?_, ?_, ?_, ?_, ?_⟩
  · show a2.s.currentLc = _
    rw [F2.lc]
    show s1.currentLc = _
    show a1.s.currentLc = _
    rw [F1.lc]
  · show a2.s.pc = _
    rw [F2.pcv]
    show a1.s.pc = _
    rw [F1.pcv]
  · show a2.s.finished = _
    rw [F2.fin]
    show a1.s.finished = _
    rw [F1.fin]
  · show a2.s.nodesFinishedLastLc = _
    rw [F2.nfl]
    show a1.s.nodesFinishedLastLc = _
    rw [F1.nfl]
  · show a2.s.remDep = _
    rw [F2.rem]
    show a1.s.remDep = _
    rw [F1.rem]
  · show a2.s.fusionRem = _
    rw [F2.fus]
    show a1.s.fusionRem = _
    rw [F1.fus]
  · show a2.s.stdoutLog = _
    rw [F2.sout]
    show a1.s.stdoutLog = _
    rw [F1.sout]
  · -- nfu
    have hBpc : B0.s.pc = s0.pc := F1.pcv
    rcases F2.nfu with ⟨e2, t2⟩ | ⟨t, ht, hty, h0, h1', he⟩
    · rcases F1.nfu with ⟨e1, t1⟩ | ⟨t, ht, hty, h0, h1', he⟩
      · left
        constructor
        · show a2.s.nfuEvents = _
          rw [e2]
          exact e1
        · show a2.s.nfuBusyTimer = _
          rw [t2]
          exact t1
      · right
        refine ⟨t, Or.inl (hsmMem t ht), hty, h0, ?_, ?_⟩
        · show a2.s.nfuBusyTimer = 1
          rw [t2]
          exact h1'
        · show a2.s.nfuEvents = _
          rw [e2]
          exact he
    · right
      rcases F1.nfu with ⟨e1, t1⟩ | ⟨u, hu, huty, hu0, hu1, hue⟩
      · have hBnfu : B0.s.nfuEvents = s0.nfuEvents := e1
        have h0' : s0.nfuBusyTimer = 0 := t1 ▸ h0
        refine ⟨t, Or.inr (hsoMem t ht), hty, h0', h1', ?_⟩
        show a2.s.nfuEvents = _
        rw [he, hBnfu, hBpc]
      · have : B0.s.nfuBusyTimer = 1 := hu1
        rw [this] at h0
        exact absurd h0 one_ne_zero
  · -- peSum
    have e1 : (a1.s.peEvents.length : Int) + a1.s.freePes =
        (s0.peEvents.length : Int) + s0.freePes := F1.peSum
    have e2 : (a2.s.peEvents.length : Int) + a2.s.freePes =
        (a1.s.peEvents.length : Int) + a1.s.freePes := F2.peSum
    show (a2.s.peEvents.length : Int) + a2.s.freePes = _
    rw [e2, e1]
  · -- peNonneg
    intro hge
    have h1 : (0 : Int) ≤ a1.s.freePes := F1.peNonneg hge
    exact F2.peNonneg h1
  · -- peMem
    intro e he
    have hBpc : B0.s.pc = s0.pc := F1.pcv
    rcases F2.peMem e he with h | ⟨t, ht, hty, he'⟩
    · rcases F1.peMem e h with h' | ⟨t, ht, hty, he'⟩
      · exact Or.inl h'
      · exact Or.inr ⟨t, Or.inl (hsmMem t ht), hty, he'⟩
    · refine Or.inr ⟨t, Or.inr (hsoMem t ht), hty, ?_⟩
      rw [hBpc] at he'
      exact he'
  · -- mandMem
    intro t ht
    have hm : a2.s.mandatoryQ = s1.mandatoryQ := F2.mand
    have ht0 : t ∈ a2.s.mandatoryQ := ht
    rw [hm] at ht0
    have ht1 : t ∈ a1.kept := ht0
    rcases F1.keptMem t ht1 with h | h
    · exact absurd h (List.not_mem_nil t)
    · exact hsmMem t h
  · -- optMem
    intro t ht
    have ht1 : t ∈ a2.kept := ht
    rcases F2.keptMem t ht1 with h | h
    · exact absurd h (List.not_mem_nil t)
    · exact hsoMem t h
  · -- ftlMem
    intro x hx
    have hx1 : x ∈ a2.s.finishedThisLc := hx
    rcases F2.ftlMem x hx1 with h | ⟨t, ht, hx'⟩
    · have h' : x ∈ a1.s.finishedThisLc := h
      rcases F1.ftlMem x h' with h'' | ⟨t, ht, hx'⟩
      · exact Or.inl h''
      · exact Or.inr ⟨t, Or.inl (hsmMem t ht), hx'⟩
    · exact Or.inr ⟨t, Or.inr (hsoMem t ht), hx'⟩

theorem eqExceptQ_refl (s : SchedState) : eqExceptQ s s :=
  ⟨rfl, rfl, rfl, rfl, rfl, rfl, rfl, rfl, rfl, rfl, rfl, rfl, rfl, rfl, rfl⟩

theorem eqExceptQ_trans {s1 s2 s3 : SchedState} (h1 : eqExceptQ s1 s2) (h2 : eqExceptQ s2 s3) :
    eqExceptQ s1 s3 := by
  obtain ⟨a1, a2, a3, a4, a5, a6, a7, a8, a9, a10, a11, a12, a13, a14, a15⟩ := h1
  obtain ⟨b1, b2, b3, b4, b5, b6, b7, b8, b9, b10, b11, b12, b13, b14, b15⟩ := h2
  exact ⟨b1.trans a1, b2.trans a2, b3.trans a3, b4.trans a4, b5.trans a5, b6.trans a6,
    b7.trans a7, b8.trans a8, b9.trans a9, b10.trans a10, b11.trans a11, b12.trans a12,
    b13.trans a13, b14.trans a14, b15.trans a15⟩

theorem releaseInner_spec (cfg : SchedCfg) (src : String) :
    ∀ (children : List String) (s : SchedState),
      eqExceptQ s ((children.foldl
        (fun s child =>
          if (infoOf cfg child).ntype = "FUSION" then s
          else {s with optionalQ :=
            s.optionalQ ++ [⟨"EDGE", src, child, (infoOf cfg child).mec, 0⟩]}) s)) ∧
      ((children.foldl
        (fun s child =>
          if (infoOf cfg child).ntype = "FUSION" then s
          else {s with optionalQ :=
            s.optionalQ ++ [⟨"EDGE", src, child, (infoOf cfg child).mec, 0⟩]}) s)).mandatoryQ =
        s.mandatoryQ ∧
      ∀ t ∈ ((children.foldl
        (fun s child =>
          if (infoOf cfg child).ntype = "FUSION" then s
          else {s with optionalQ :=
            s.optionalQ ++ [⟨"EDGE", src, child, (infoOf cfg child).mec, 0⟩]}) s)).optionalQ,
        t ∈ s.optionalQ ∨
          (t.ttype = "EDGE" ∧ t.id ∈ children ∧ (infoOf cfg t.id).ntype ≠ "FUSION" ∧
            t.mec = (infoOf cfg t.id).mec ∧ t.src = src ∧ t.slack = 0)
  | [], s => ⟨eqExceptQ_refl s, rfl, fun t ht => Or.inl ht⟩
  | c :: rest, s => by
    rw [List.foldl_cons]
    by_cases hc : (infoOf cfg c).ntype = "FUSION"
    · rw [if_pos hc]
      obtain ⟨h1, h2, h3⟩ := releaseInner_spec cfg src rest s
      refine ⟨h1, h2, fun t ht => ?_⟩
      rcases h3 t ht with h | ⟨ha, hb, hc', hd⟩
      · exact Or.inl h
      · exact Or.inr ⟨ha, List.mem_cons_of_mem _ hb, hc', hd⟩
    · rw [if_neg hc]
      obtain ⟨h1, h2, h3⟩ := releaseInner_spec cfg src rest
        {s with optionalQ := s.optionalQ ++ [⟨"EDGE", src, c, (infoOf cfg c).mec, 0⟩]}
      refine ⟨eqExceptQ_trans ⟨rfl, rfl, rfl, rfl, rfl, rfl, rfl, rfl, rfl, rfl, rfl, rfl,
        rfl, rfl, rfl⟩ h1, h2, fun t ht => ?_⟩
      rcases h3 t ht with h | ⟨ha, hb, hc', hd⟩
      · rcases List.mem_append.mp h with h' | h'
        · exact Or.inl h'
        · rw [List.mem_singleton] at h'
          subst h'
          exact Or.inr ⟨rfl, List.mem_cons_self _ _, hc, rfl, rfl, rfl⟩
      · exact Or.inr ⟨ha, List.mem_cons_of_mem _ hb, hc', hd⟩

theorem releaseEdges_spec (cfg : SchedCfg) :
    ∀ (srcs : List String) (s : SchedState),
      eqExceptQ s ((srcs.foldl
        (fun s src =>
          (adjOf cfg src).foldl
            (fun s child =>
              if (infoOf cfg child).ntype = "FUSION" then s
              else {s with optionalQ :=
                s.optionalQ ++ [⟨"EDGE", src, child, (infoOf cfg child).mec, 0⟩]}) s) s)) ∧
      ((srcs.foldl
        (fun s src =>
          (adjOf cfg src).foldl
            (fun s child =>
              if (infoOf cfg child).ntype = "FUSION" then s
              else {s with optionalQ :=
                s.optionalQ ++ [⟨"EDGE", src, child, (infoOf cfg child).mec, 0⟩]}) s)
          s)).mandatoryQ = s.mandatoryQ ∧
      ∀ t ∈ ((srcs.foldl
        (fun s src =>
          (adjOf cfg src).foldl
            (fun s child =>
              if (infoOf cfg child).ntype = "FUSION" then s
              else {s with optionalQ :=
                s.optionalQ ++ [⟨"EDGE", src, child, (infoOf cfg child).mec, 0⟩]}) s)
          s)).optionalQ,
        t ∈ s.optionalQ ∨
          (t.ttype = "EDGE" ∧ (∃ src ∈ srcs, t.id ∈ adjOf cfg src) ∧
            (infoOf cfg t.id).ntype ≠ "FUSION" ∧ t.mec = (infoOf cfg t.id).mec ∧ t.slack = 0)
  | [], s => ⟨eqExceptQ_refl s, rfl, fun t ht => Or.inl ht⟩
  | src :: rest, s => by
    rw [List.foldl_cons]
    obtain ⟨i1, i2, i3⟩ := releaseInner_spec cfg src (adjOf cfg src) s
    obtain ⟨h1, h2, h3⟩ := releaseEdges_spec cfg rest _
    refine ⟨eqExceptQ_trans i1 h1, h2.trans i2, fun t ht => ?_⟩
    rcases h3 t ht with h | ⟨ha, ⟨src', hs', hb⟩, hc', hd⟩
    · rcases i3 t h with h' | ⟨ha, hb, hc', hd, he, hf⟩
      · exact Or.inl h'
      · exact Or.inr ⟨ha, ⟨src, List.mem_cons_self _ _, hb⟩, hc', hd, hf⟩
    · exact Or.inr ⟨ha, ⟨src', List.mem_cons_of_mem _ hs', hb⟩, hc', hd⟩

theorem promoteStepB_spec (cfg : SchedCfg) :
    ∀ (entries : List (String × NodeInfo)) (s : SchedState),
      eqExceptQ s (entries.foldl
        (fun s pr =>
          let nid := pr.1
          let inf := pr.2
          if s.finished.contains nid then s
          else if inf.mec ≤ s.currentLc then
            let isReady :=
              if inf.ntype = "FUSION" then fusGet s nid = 0
              else if inf.ntype = "NORMAL" then remGet s nid = 0
              else False
            if isReady then
              let inQ := s.mandatoryQ.any
                (fun t => t.id = nid ∧ (t.ttype = "UPDATE" ∨ t.ttype = "FUSION"))
              let inRun := (s.peEvents ++ s.nfuEvents).any
                (fun e => e.target = nid ∧ (e.etype = "UPDATE" ∨ e.etype = "FUSION"))
              if ¬inQ ∧ ¬inRun then
                {s with mandatoryQ := s.mandatoryQ ++
                  [⟨(if inf.ntype = "FUSION" then "FUSION" else "UPDATE"), "", nid,
                    inf.mec, -999⟩]}
              else s
            else s
          else s) s) ∧
      (entries.foldl
        (fun s pr =>
          let nid := pr.1
          let inf := pr.2
          if s.finished.contains nid then s
          else if inf.mec ≤ s.currentLc then
            let isReady :=
              if inf.ntype = "FUSION" then fusGet s nid = 0
              else if inf.ntype = "NORMAL" then remGet s nid = 0
              else False
            if isReady then
              let inQ := s.mandatoryQ.any
                (fun t => t.id = nid ∧ (t.ttype = "UPDATE" ∨ t.ttype = "FUSION"))
              let inRun := (s.peEvents ++ s.nfuEvents).any
                (fun e => e.target = nid ∧ (e.etype = "UPDATE" ∨ e.etype = "FUSION"))
              if ¬inQ ∧ ¬inRun then
                {s with mandatoryQ := s.mandatoryQ ++
                  [⟨(if inf.ntype = "FUSION" then "FUSION" else "UPDATE"), "", nid,
                    inf.mec, -999⟩]}
              else s
            else s
          else s) s).optionalQ = s.optionalQ ∧
      ∀ t ∈ (entries.foldl
        (fun s pr =>
          let nid := pr.1
          let inf := pr.2
          if s.finished.contains nid then s
          else if inf.mec ≤ s.currentLc then
            let isReady :=
              if inf.ntype = "FUSION" then fusGet s nid = 0
              else if inf.ntype = "NORMAL" then remGet s nid = 0
              else False
            if isReady then
              let inQ := s.mandatoryQ.any
                (fun t => t.id = nid ∧ (t.ttype = "UPDATE" ∨ t.ttype = "FUSION"))
              let inRun := (s.peEvents ++ s.nfuEvents).any
                (fun e => e.target = nid ∧ (e.etype = "UPDATE" ∨ e.etype = "FUSION"))
              if ¬inQ ∧ ¬inRun then
                {s with mandatoryQ := s.mandatoryQ ++
                  [⟨(if inf.ntype = "FUSION" then "FUSION" else "UPDATE"), "", nid,
                    inf.mec, -999⟩]}
              else s
            else s
          else s) s).mandatoryQ,
        t ∈ s.mandatoryQ ∨ ∃ pr ∈ entries,
          ((t = ⟨"FUSION", "", pr.1, pr.2.mec, -999⟩ ∧ pr.2.ntype = "FUSION") ∨
           (t = ⟨"UPDATE", "", pr.1, pr.2.mec, -999⟩ ∧ pr.2.ntype = "NORMAL"))
  | [], s => ⟨eqExceptQ_refl s, rfl, fun t ht => Or.inl ht⟩
  | pr :: rest, s => by
    rw [List.foldl_cons]
    dsimp only
    by_cases h1 : s.finished.contains pr.1
    · rw [if_pos h1]
      obtain ⟨g1, g2, g3⟩ := promoteStepB_spec cfg rest s
      refine ⟨g1, g2, fun t ht => ?_⟩
      rcases g3 t ht with h | ⟨pr', hp', hh⟩
      · exact Or.inl h
      · exact Or.inr ⟨pr', List.mem_cons_of_mem _ hp', hh⟩
    · rw [if_neg h1]
      by_cases h2 : pr.2.mec ≤ s.currentLc
      · rw [if_pos h2]
        by_cases hrdy : (if pr.2.ntype = "FUSION" then fusGet s pr.1 = 0
            else if pr.2.ntype = "NORMAL" then remGet s pr.1 = 0 else False)
        · rw [if_pos hrdy]
          by_cases hq : (¬ (s.mandatoryQ.any
                (fun t => t.id = pr.1 ∧ (t.ttype = "UPDATE" ∨ t.ttype = "FUSION")) = true) ∧
              ¬ ((s.peEvents ++ s.nfuEvents).any
                (fun e => e.target = pr.1 ∧ (e.etype = "UPDATE" ∨ e.etype = "FUSION")) = true))
          · rw [if_pos hq]
            obtain ⟨g1, g2, g3⟩ := promoteStepB_spec cfg rest
              {s with mandatoryQ := s.mandatoryQ ++
                [⟨(if pr.2.ntype = "FUSION" then "FUSION" else "UPDATE"), "", pr.1,
                  pr.2.mec, -999⟩]}
            refine ⟨eqExceptQ_trans ⟨rfl, rfl, rfl, rfl, rfl, rfl, rfl, rfl, rfl, rfl, rfl,
              rfl, rfl, rfl, rfl⟩ g1, g2, fun t ht => ?_⟩
            rcases g3 t ht with h | ⟨pr', hp', hh⟩
            · rcases List.mem_append.mp h with h' | h'
              · exact Or.inl h'
              · rw [List.mem_singleton] at h'
                subst h'
                by_cases hf : pr.2.ntype = "FUSION"
                · exact Or.inr ⟨pr, List.mem_cons_self _ _, Or.inl ⟨by rw [if_pos hf], hf⟩⟩
                · rw [if_neg hf] at hrdy ⊢
                  by_cases hn : pr.2.ntype = "NORMAL"
                  · exact Or.inr ⟨pr, List.mem_cons_self _ _, Or.inr ⟨rfl, hn⟩⟩
                  · rw [if_neg hn] at hrdy
                    exact absurd hrdy (by simp)
            · exact Or.inr ⟨pr', List.mem_cons_of_mem _ hp', hh⟩
          · rw [if_neg hq]
            obtain ⟨g1, g2, g3⟩ := promoteStepB_spec cfg rest s
            refine ⟨g1, g2, fun t ht => ?_⟩
            rcases g3 t ht with h | ⟨pr', hp', hh⟩
            · exact Or.inl h
            · exact Or.inr ⟨pr', List.mem_cons_of_mem _ hp', hh⟩
        · rw [if_neg hrdy]
          obtain ⟨g1, g2, g3⟩ := promoteStepB_spec cfg rest s
          refine ⟨g1, g2, fun t ht => ?_⟩
          rcases g3 t ht with h | ⟨pr', hp', hh⟩
          · exact Or.inl h
          · exact Or.inr ⟨pr', List.mem_cons_of_mem _ hp', hh⟩
      · rw [if_neg h2]
        obtain ⟨g1, g2, g3⟩ := promoteStepB_spec cfg rest s
        refine ⟨g1, g2, fun t ht => ?_⟩
        rcases g3 t ht with h | ⟨pr', hp', hh⟩
        · exact Or.inl h
        · exact Or.inr ⟨pr', List.mem_cons_of_mem _ hp', hh⟩

theorem deadlinePromote_spec (cfg : SchedCfg) (s : SchedState) :
    eqExceptQ s (deadlinePromote cfg s) ∧
    (deadlinePromote cfg s).optionalQ = s.optionalQ ∧
    ∀ t ∈ (deadlinePromote cfg s).mandatoryQ,
      t ∈ s.mandatoryQ ∨ ∃ pr ∈ cfg.info,
        ((t = ⟨"FUSION", "", pr.1, pr.2.mec, -999⟩ ∧ pr.2.ntype = "FUSION") ∨
         (t = ⟨"UPDATE", "", pr.1, pr.2.mec, -999⟩ ∧ pr.2.ntype = "NORMAL")) := by
  unfold deadlinePromote
  exact promoteStepB_spec cfg cfg.info s

theorem ggroups_append_one (q : List Task) (t : Task) :
    ggroups (q ++ [t]) =
      (if (ggroups q).any (fun p => p.1 = t.id) then
        (ggroups q).map (fun p => if p.1 = t.id then (p.1, p.2 ++ [t]) else p)
      else ggroups q ++ [(t.id, [t])]) := by
  unfold ggroups
  rw [List.foldl_append, List.foldl_cons, List.foldl_nil]

theorem ggroups_spec (q : List Task) :
    (ggroups q).Pairwise (fun a b => a.1 ≠ b.1) ∧
    (∀ kg ∈ ggroups q, kg.2 = q.filter (fun u => u.id = kg.1)) ∧
    (∀ k : String, (∃ g, (k, g) ∈ ggroups q) ↔ q.filter (fun u => u.id = k) ≠ []) := by
  induction q using List.reverseRecOn with
  | nil =>
    refine ⟨List.Pairwise.nil, by simp [ggroups], fun k => ?_⟩
    simp [ggroups]
  | append_singleton q t ih =>
    obtain ⟨ih1, ih2, ih3⟩ := ih
    rw [ggroups_append_one]
    by_cases hmem : (ggroups q).any (fun p => p.1 = t.id) = true
    · rw [if_pos hmem]
      rw [List.any_eq_true] at hmem
      obtain ⟨pk, hpk, hpkid⟩ := hmem
      rw [decide_eq_true_eq] at hpkid
      refine ⟨?_, ?_, ?_⟩
      · refine List.Pairwise.map _ (fun a b hab => ?_) ih1
        split <;> split <;> exact hab
      · intro kg' hkg'
        rw [List.mem_map] at hkg'
        obtain ⟨kg, hkg, rfl⟩ := hkg'
        have h2 := ih2 kg hkg
        by_cases hk : kg.1 = t.id
        · rw [if_pos hk]
          dsimp only
          rw [List.filter_append, ← h2]
          have hft : List.filter (fun u => decide (u.id = kg.1)) [t] = [t] := by
            simp [hk]
          rw [hft]
        · rw [if_neg hk]
          rw [List.filter_append, ← h2]
          have hnk : ¬ (t.id = kg.1) := fun h => hk h.symm
          have hft : List.filter (fun u => decide (u.id = kg.1)) [t] = [] := by
            simp [hnk]
          rw [hft, List.append_nil]
      · intro k
        constructor
        · rintro ⟨g, hg⟩
          rw [List.mem_map] at hg
          obtain ⟨kg, hkg, hupd⟩ := hg
          have hk1 : kg.1 = k := by
            have h1 : (if kg.1 = t.id then (kg.1, kg.2 ++ [t]) else kg).1 = kg.1 := by
              split <;> rfl
            rw [hupd] at h1
            exact h1.symm
          have hold : List.filter (fun u => decide (u.id = k)) q ≠ [] := by
            apply (ih3 k).mp
            refine ⟨kg.2, ?_⟩
            rw [← hk1]
            exact hkg
          rw [List.filter_append]
          exact fun hcon => hold (List.append_eq_nil.mp hcon).1
        · intro hne
          by_cases hk : t.id = k
          · refine ⟨pk.2 ++ [t], ?_⟩
            rw [List.mem_map]
            refine ⟨pk, hpk, ?_⟩
            rw [if_pos hpkid]
            rw [hpkid, hk]
          · have hft : List.filter (fun u => decide (u.id = k)) [t] = [] := by
              simp [hk]
            rw [List.filter_append, hft, List.append_nil] at hne
            obtain ⟨g, hg⟩ := (ih3 k).mpr hne
            refine ⟨g, ?_⟩
            rw [List.mem_map]
            refine ⟨(k, g), hg, ?_⟩
            rw [if_neg]
            dsimp only
            exact fun h => hk h.symm
    · rw [if_neg hmem]
      have hnone : ∀ p ∈ ggroups q, p.1 ≠ t.id := by
        intro p hp hcon
        apply hmem
        rw [List.any_eq_true]
        exact ⟨p, hp, decide_eq_true hcon⟩
      refine ⟨?_, ?_, ?_⟩
      · rw [List.pairwise_append]
        refine ⟨ih1, List.pairwise_singleton _ _, ?_⟩
        intro a ha b hb
        rw [List.mem_singleton] at hb
        subst hb
        exact hnone a ha
      · intro kg hkg
        rcases List.mem_append.mp hkg with h | h
        · have hnk : ¬ (t.id = kg.1) := fun hc => hnone kg h hc.symm
          have hft : List.filter (fun u => decide (u.id = kg.1)) [t] = [] := by
            simp [hnk]
          rw [List.filter_append, hft, List.append_nil]
          exact ih2 kg h
        · rw [List.mem_singleton] at h
          subst h
          dsimp only
          have hq0 : List.filter (fun u => decide (u.id = t.id)) q = [] := by
            by_contra hcon
            obtain ⟨g, hg⟩ := (ih3 t.id).mpr hcon
            exact hnone (t.id, g) hg rfl
          rw [List.filter_append, hq0, List.nil_append]
          simp
      · intro k
        constructor
        · rintro ⟨g, hg⟩
          rcases List.mem_append.mp hg with h | h
          · have hold := (ih3 k).mp ⟨g, h⟩
            rw [List.filter_append]
            exact fun hcon => hold (List.append_eq_nil.mp hcon).1
          · rw [List.mem_singleton, Prod.mk.injEq] at h
            obtain ⟨hk, hg2⟩ := h
            subst hk
            rw [List.filter_append]
            have hft : List.filter (fun u => decide (u.id = t.id)) [t] = [t] := by
              simp
            rw [hft]
            simp
        · intro hne
          by_cases hk : t.id = k
          · subst hk
            exact ⟨[t], List.mem_append_right _ (List.mem_singleton_self _)⟩
          · have hft : List.filter (fun u => decide (u.id = k)) [t] = [] := by
              simp [hk]
            rw [List.filter_append, hft, List.append_nil] at hne
            obtain ⟨g, hg⟩ := (ih3 k).mpr hne
            exact ⟨g, List.mem_append_left _ hg⟩

theorem calcSlack_eqExceptQ {cfg : SchedCfg} {s s' : SchedState} (h : eqExceptQ s s')
    (x : String) : calcSlack cfg s' x = calcSlack cfg s x := by
  unfold calcSlack remGet
  rw [h.1, h.2.2.2.2.2.2.2.2.2.1]

theorem promBody_eqExceptQ (cfg : SchedCfg) (s : SchedState) (g : String × List Task) :
    eqExceptQ s (promBody cfg s g) := by
  unfold promBody
  dsimp only
  split
  · split
    · exact eqExceptQ_refl s
    · exact ⟨rfl, rfl, rfl, rfl, rfl, rfl, rfl, rfl, rfl, rfl, rfl, rfl, rfl, rfl, rfl⟩
  · exact ⟨rfl, rfl, rfl, rfl, rfl, rfl, rfl, rfl, rfl, rfl, rfl, rfl, rfl, rfl, rfl⟩

theorem promFold_spec (cfg : SchedCfg) :
    ∀ (groups : List (String × List Task)) (s0 : SchedState),
      groups.Pairwise (fun a b => a.1 ≠ b.1) →
      (∀ kg ∈ groups, ∀ u ∈ kg.2, u.id = kg.1) →
      eqExceptQ s0 (groups.foldl (promBody cfg) s0) ∧
      ∃ promos, (groups.foldl (promBody cfg) s0).mandatoryQ = s0.mandatoryQ ++ promos ∧
        (∀ k : String, (∀ g, (k, g) ∉ groups) →
          promos.filter (fun u => u.id = k) = [] ∧
          (groups.foldl (promBody cfg) s0).optionalQ.filter (fun u => u.id = k) =
            s0.optionalQ.filter (fun u => u.id = k)) ∧
        (∀ k g, (k, g) ∈ groups →
          (calcSlack cfg s0 k ≤ 0 →
            promos.filter (fun u => u.id = k) =
              (g.map (fun u => {u with slack := calcSlack cfg s0 k})).take 1 ∧
            (groups.foldl (promBody cfg) s0).optionalQ.filter (fun u => u.id = k) =
              s0.optionalQ.filter (fun u => u.id = k) ++
                (g.map (fun u => {u with slack := calcSlack cfg s0 k})).tail) ∧
          (0 < calcSlack cfg s0 k →
            promos.filter (fun u => u.id = k) = [] ∧
            (groups.foldl (promBody cfg) s0).optionalQ.filter (fun u => u.id = k) =
              s0.optionalQ.filter (fun u => u.id = k) ++
                g.map (fun u => {u with slack := calcSlack cfg s0 k}))) ∧
        (∀ u ∈ promos, ∃ kg ∈ groups, ∃ u0 ∈ kg.2,
          u = {u0 with slack := calcSlack cfg s0 kg.1}) ∧
        (∀ u ∈ (groups.foldl (promBody cfg) s0).optionalQ, u ∈ s0.optionalQ ∨
          ∃ kg ∈ groups, ∃ u0 ∈ kg.2, u = {u0 with slack := calcSlack cfg s0 kg.1}) := by
  intro groups
  induction groups with
  | nil =>
    intro s0 _ _
    refine ⟨eqExceptQ_refl s0, [], by simp, ?_, ?_, ?_, ?_⟩
    · intro k _
      simp
    · intro k g hkg
      exact absurd hkg (List.not_mem_nil _)
    · intro u hu
      exact absurd hu (List.not_mem_nil _)
    · intro u hu
      exact Or.inl hu
  | cons hd rest ih =>
    intro s0 hpw helem
    rw [List.foldl_cons]
    obtain ⟨k', g'⟩ := hd
    have hpwt : rest.Pairwise (fun a b => a.1 ≠ b.1) := hpw.of_cons
    have hpwh : ∀ b ∈ rest, k' ≠ b.1 := by
      intro b hb
      exact (List.pairwise_cons.mp hpw).1 b hb
    have helemh : ∀ u ∈ g', u.id = k' := fun u hu => helem (k', g') (List.mem_cons_self _ _) u hu
    have helemt : ∀ kg ∈ rest, ∀ u ∈ kg.2, u.id = kg.1 :=
      fun kg hkg u hu => helem kg (List.mem_cons_of_mem _ hkg) u hu
    set s1 := promBody cfg s0 (k', g') with hs1
    have heq1 : eqExceptQ s0 s1 := promBody_eqExceptQ cfg s0 (k', g')
    have hsl1 : ∀ x, calcSlack cfg s1 x = calcSlack cfg s0 x :=
      fun x => calcSlack_eqExceptQ heq1 x
    obtain ⟨heqR, promosR, hmandR, habsR, hgrpR, hsrcR, hoptR⟩ := ih s1 hpwt helemt
    set sl := calcSlack cfg s0 k' with hsl
    have hts : ∀ u ∈ g'.map (fun t => {t with slack := sl}), u.id = k' := by
      intro u hu
      rw [List.mem_map] at hu
      obtain ⟨u0, hu0, rfl⟩ := hu
      exact helemh u0 hu0
    -- explicit form of s1
    have hs1m : (sl ≤ 0 → s1.mandatoryQ =
        s0.mandatoryQ ++ (g'.map (fun t => {t with slack := sl})).take 1 ∧
        s1.optionalQ = s0.optionalQ ++ (g'.map (fun t => {t with slack := sl})).tail) ∧
        (0 < sl → s1.mandatoryQ = s0.mandatoryQ ∧
          s1.optionalQ = s0.optionalQ ++ g'.map (fun t => {t with slack := sl})) := by
      rw [hs1]
      unfold promBody
      dsimp only
      rw [← hsl]
      constructor
      · intro hle
        rw [if_pos hle]
        cases g' with
        | nil => constructor <;> simp
        | cons u0 us => exact ⟨rfl, rfl⟩
      · intro hgt
        rw [if_neg (by omega)]
        exact ⟨rfl, rfl⟩
    have hfilne : ∀ (l : List Task), (∀ u ∈ l, u.id = k') → ∀ k, k ≠ k' →
        l.filter (fun u => u.id = k) = [] := by
      intro l hl k hk
      rw [List.filter_eq_nil]
      intro u hu
      rw [decide_eq_true_eq]
      intro hc
      exact hk ((hl u hu) ▸ hc ▸ rfl)
    have hfileq : ∀ (l : List Task), (∀ u ∈ l, u.id = k') →
        l.filter (fun u => u.id = k') = l := by
      intro l hl
      rw [List.filter_eq_self]
      intro u hu
      rw [decide_eq_true_eq]
      exact hl u hu
    have htake : ∀ u ∈ (g'.map (fun t => {t with slack := sl})).take 1, u.id = k' := by
      intro u hu
      exact hts u (List.mem_of_mem_take hu)
    have htail : ∀ u ∈ (g'.map (fun t => {t with slack := sl})).tail, u.id = k' := by
      intro u hu
      exact hts u (List.mem_of_mem_tail hu)
    refine ⟨eqExceptQ_trans heq1 heqR, ?_⟩
    by_cases hle : sl ≤ 0
    · obtain ⟨hm1, ho1⟩ := hs1m.1 hle
      refine ⟨(g'.map (fun t => {t with slack := sl})).take 1 ++ promosR, ?_, ?_, ?_, ?_, ?_⟩
      · rw [hmandR, hm1, List.append_assoc]
      · intro k hk
        have hkne : k ≠ k' := by
          intro hc
          exact hk g' (hc ▸ List.mem_cons_self _ _)
        have hkrest : ∀ g, (k, g) ∉ rest := by
          intro g hg
          exact hk g (List.mem_cons_of_mem _ hg)
        obtain ⟨hp, ho⟩ := habsR k hkrest
        constructor
        · rw [List.filter_append, hp, hfilne _ htake k hkne, List.append_nil]
        · rw [ho, ho1, List.filter_append, hfilne _ htail k hkne, List.append_nil]
      · intro k g hkg
        rcases List.mem_cons.mp hkg with hh | hh
        · rw [Prod.mk.injEq] at hh
          obtain ⟨rfl, rfl⟩ := hh
          have hkrest : ∀ g2, (k, g2) ∉ rest := by
            intro g2 hg2
            exact (hpwh (k, g2) hg2) rfl
          obtain ⟨hp, ho⟩ := habsR k hkrest
          constructor
          · intro _
            rw [← hsl]
            constructor
            · rw [List.filter_append, hp, List.append_nil, hfileq _ htake]
            · rw [ho, ho1, List.filter_append, hfileq _ htail]
          · intro hgt
            rw [← hsl] at hgt
            omega
        · have hkne : k ≠ k' := fun hc => (hpwh (k, g) hh) hc.symm
          have hgrp := hgrpR k g hh
          rw [hsl1 k] at hgrp
          have hofil : s1.optionalQ.filter (fun u => u.id = k) =
              s0.optionalQ.filter (fun u => u.id = k) := by
            rw [ho1, List.filter_append, hfilne _ htail k hkne, List.append_nil]
          constructor
          · intro hle2
            obtain ⟨hp, ho⟩ := hgrp.1 hle2
            constructor
            · rw [List.filter_append, hfilne _ htake k hkne, List.nil_append, hp]
            · rw [ho, hofil]
          · intro hgt2
            obtain ⟨hp, ho⟩ := hgrp.2 hgt2
            constructor
            · rw [List.filter_append, hfilne _ htake k hkne, List.nil_append, hp]
            · rw [ho, hofil]
      · intro u hu
        rcases List.mem_append.mp hu with hh | hh
        · refine ⟨(k', g'), List.mem_cons_self _ _, ?_⟩
          have := List.mem_of_mem_take hh
          rw [List.mem_map] at this
          obtain ⟨u0, hu0, rfl⟩ := this
          exact ⟨u0, hu0, by rw [hsl]⟩
        · obtain ⟨kg, hkg, u0, hu0, hu⟩ := hsrcR u hh
          rw [hsl1 kg.1] at hu
          exact ⟨kg, List.mem_cons_of_mem _ hkg, u0, hu0, hu⟩
      · intro u hu
        rcases hoptR u hu with hh | ⟨kg, hkg, u0, hu0, hu'⟩
        · rw [ho1] at hh
          rcases List.mem_append.mp hh with hh' | hh'
          · exact Or.inl hh'
          · refine Or.inr ⟨(k', g'), List.mem_cons_self _ _, ?_⟩
            have := List.mem_of_mem_tail hh'
            rw [List.mem_map] at this
            obtain ⟨u0, hu0, rfl⟩ := this
            exact ⟨u0, hu0, by rw [hsl]⟩
        · rw [hsl1 kg.1] at hu'
          exact Or.inr ⟨kg, List.mem_cons_of_mem _ hkg, u0, hu0, hu'⟩
    · have hgt : 0 < sl := by omega
      obtain ⟨hm1, ho1⟩ := hs1m.2 hgt
      refine ⟨promosR, ?_, ?_, ?_, ?_, ?_⟩
      · rw [hmandR, hm1]
      · intro k hk
        have hkne : k ≠ k' := by
          intro hc
          exact hk g' (hc ▸ List.mem_cons_self _ _)
        have hkrest : ∀ g, (k, g) ∉ rest := by
          intro g hg
          exact hk g (List.mem_cons_of_mem _ hg)
        obtain ⟨hp, ho⟩ := habsR k hkrest
        refine ⟨hp, ?_⟩
        rw [ho, ho1, List.filter_append, hfilne _ hts k hkne, List.append_nil]
      · intro k g hkg
        rcases List.mem_cons.mp hkg with hh | hh
        · rw [Prod.mk.injEq] at hh
          obtain ⟨rfl, rfl⟩ := hh
          have hkrest : ∀ g2, (k, g2) ∉ rest := by
            intro g2 hg2
            exact (hpwh (k, g2) hg2) rfl
          obtain ⟨hp, ho⟩ := habsR k hkrest
          constructor
          · intro hle2
            rw [← hsl] at hle2
            omega
          · intro _
            rw [← hsl]
            exact ⟨hp, by rw [ho, ho1, List.filter_append, hfileq _ hts]⟩
        · have hkne : k ≠ k' := fun hc => (hpwh (k, g) hh) hc.symm
          have hgrp := hgrpR k g hh
          rw [hsl1 k] at hgrp
          have hofil : s1.optionalQ.filter (fun u => u.id = k) =
              s0.optionalQ.filter (fun u => u.id = k) := by
            rw [ho1, List.filter_append, hfilne _ hts k hkne, List.append_nil]
          constructor
          · intro hle2
            obtain ⟨hp, ho⟩ := hgrp.1 hle2
            exact ⟨hp, by rw [ho, hofil]⟩
          · intro hgt2
            obtain ⟨hp, ho⟩ := hgrp.2 hgt2
            exact ⟨hp, by rw [ho, hofil]⟩
      · intro u hu
        obtain ⟨kg, hkg, u0, hu0, hu'⟩ := hsrcR u hu
        rw [hsl1 kg.1] at hu'
        exact ⟨kg, List.mem_cons_of_mem _ hkg, u0, hu0, hu'⟩
      · intro u hu
        rcases hoptR u hu with hh | ⟨kg, hkg, u0, hu0, hu'⟩
        · rw [ho1] at hh
          rcases List.mem_append.mp hh with hh' | hh'
          · exact Or.inl hh'
          · refine Or.inr ⟨(k', g'), List.mem_cons_self _ _, ?_⟩
            rw [List.mem_map] at hh'
            obtain ⟨u0, hu0, rfl⟩ := hh'
            exact ⟨u0, hu0, by rw [hsl]⟩
        · rw [hsl1 kg.1] at hu'
          exact Or.inr ⟨kg, List.mem_cons_of_mem _ hkg, u0, hu0, hu'⟩

theorem stepC_spec (cfg : SchedCfg) (s : SchedState) :
    eqExceptQ s (stepC cfg s) ∧
    ∃ promos, (stepC cfg s).mandatoryQ = s.mandatoryQ ++ promos ∧
      (∀ k : String, s.optionalQ.filter (fun u => u.id = k) = [] →
        promos.filter (fun u => u.id = k) = [] ∧
        (stepC cfg s).optionalQ.filter (fun u => u.id = k) = []) ∧
      (∀ k : String, s.optionalQ.filter (fun u => u.id = k) ≠ [] →
        (calcSlack cfg s k ≤ 0 →
          promos.filter (fun u => u.id = k) =
            ((s.optionalQ.filter (fun u => u.id = k)).map
              (fun u => {u with slack := calcSlack cfg s k})).take 1 ∧
          (stepC cfg s).optionalQ.filter (fun u => u.id = k) =
            ((s.optionalQ.filter (fun u => u.id = k)).map
              (fun u => {u with slack := calcSlack cfg s k})).tail) ∧
        (0 < calcSlack cfg s k →
          promos.filter (fun u => u.id = k) = [] ∧
          (stepC cfg s).optionalQ.filter (fun u => u.id = k) =
            (s.optionalQ.filter (fun u => u.id = k)).map
              (fun u => {u with slack := calcSlack cfg s k}))) ∧
      (∀ u ∈ promos, ∃ u0 ∈ s.optionalQ, ∃ sl : Int, u = {u0 with slack := sl}) ∧
      (∀ u ∈ (stepC cfg s).optionalQ,
        ∃ u0 ∈ s.optionalQ, ∃ sl : Int, u = {u0 with slack := sl}) := by
  obtain ⟨g1, g2, g3⟩ := ggroups_spec s.optionalQ
  have helems : ∀ kg ∈ ggroups s.optionalQ, ∀ u ∈ kg.2, u.id = kg.1 := by
    intro kg hkg u hu
    rw [g2 kg hkg] at hu
    have := List.of_mem_filter hu
    rw [decide_eq_true_eq] at this
    exact this
  set sz : SchedState := {s with optionalQ := []} with hsz
  have hszq : eqExceptQ s sz := ⟨rfl, rfl, rfl, rfl, rfl, rfl, rfl, rfl, rfl, rfl, rfl,
    rfl, rfl, rfl, rfl⟩
  have hslz : ∀ x, calcSlack cfg sz x = calcSlack cfg s x :=
    fun x => calcSlack_eqExceptQ hszq x
  obtain ⟨heq, promos, hmand, habs, hgrp, hsrc, hopt⟩ :=
    promFold_spec cfg (ggroups s.optionalQ) sz g1 helems
  have hstep : stepC cfg s = (ggroups s.optionalQ).foldl (promBody cfg) sz := rfl
  rw [hstep]
  refine ⟨eqExceptQ_trans hszq heq, promos, hmand, ?_, ?_, ?_, ?_⟩
  · intro k hk
    have hnog : ∀ g, (k, g) ∉ ggroups s.optionalQ := by
      intro g hg
      exact (g3 k).mp ⟨g, hg⟩ hk
    obtain ⟨hp, ho⟩ := habs k hnog
    refine ⟨hp, ?_⟩
    rw [ho]
    simp [hsz]
  · intro k hk
    obtain ⟨g, hg⟩ := (g3 k).mpr hk
    have hgfil : g = s.optionalQ.filter (fun u => u.id = k) := g2 (k, g) hg
    have h := hgrp k g hg
    rw [hslz k] at h
    have hszfil : sz.optionalQ.filter (fun u => u.id = k) = [] := by
      simp [hsz]
    constructor
    · intro hle
      obtain ⟨hp, ho⟩ := h.1 hle
      rw [hgfil] at hp ho
      rw [hszfil, List.nil_append] at ho
      exact ⟨hp, ho⟩
    · intro hgt
      obtain ⟨hp, ho⟩ := h.2 hgt
      rw [hgfil] at ho
      rw [hszfil, List.nil_append] at ho
      exact ⟨hp, ho⟩
  · intro u hu
    obtain ⟨kg, hkg, u0, hu0, hu'⟩ := hsrc u hu
    have := g2 kg hkg
    rw [this] at hu0
    rw [hslz kg.1] at hu'
    exact ⟨u0, List.mem_of_mem_filter hu0, calcSlack cfg s kg.1, hu'⟩
  · intro u hu
    rcases hopt u hu with hh | ⟨kg, hkg, u0, hu0, hu'⟩
    · rw [hsz] at hh
      exact absurd hh (List.not_mem_nil u)
    · have := g2 kg hkg
      rw [this] at hu0
      rw [hslz kg.1] at hu'
      exact ⟨u0, List.mem_of_mem_filter hu0, calcSlack cfg s kg.1, hu'⟩

theorem lcBoundary_spec (cfg : SchedCfg) (s0 : SchedState) :
    (lcBoundary cfg s0).currentLc = s0.currentLc + 1 ∧
    (lcBoundary cfg s0).pc = s0.pc ∧
    (lcBoundary cfg s0).finished = s0.finished ∧
    (lcBoundary cfg s0).peEvents = s0.peEvents ∧
    (lcBoundary cfg s0).nfuEvents = s0.nfuEvents ∧
    (lcBoundary cfg s0).freePes = s0.freePes ∧
    (lcBoundary cfg s0).nfuBusyTimer = s0.nfuBusyTimer ∧
    (lcBoundary cfg s0).remDep = s0.remDep ∧
    (lcBoundary cfg s0).fusionRem = s0.fusionRem ∧
    (lcBoundary cfg s0).stdoutLog = s0.stdoutLog ∧
    (lcBoundary cfg s0).finishedThisLc = [] ∧
    (∀ t ∈ (lcBoundary cfg s0).optionalQ, EdgeShaped cfg s0 t) ∧
    (∀ t ∈ (lcBoundary cfg s0).mandatoryQ,
      t ∈ s0.mandatoryQ ∨
      (∃ pr ∈ cfg.info,
        ((t = ⟨"FUSION", "", pr.1, pr.2.mec, -999⟩ ∧ pr.2.ntype = "FUSION") ∨
         (t = ⟨"UPDATE", "", pr.1, pr.2.mec, -999⟩ ∧ pr.2.ntype = "NORMAL"))) ∨
      EdgeShaped cfg s0 t) := by
  unfold lcBoundary
  dsimp only
  set s1 : SchedState := {s0 with currentLc := s0.currentLc + 1, finishedThisLc := []}
    with hs1def
  have hrel : releaseEdges cfg s1 = s1.nodesFinishedLastLc.foldl
      (fun s src =>
        (adjOf cfg src).foldl
          (fun s child =>
            if (infoOf cfg child).ntype = "FUSION" then s
            else {s with optionalQ :=
              s.optionalQ ++ [⟨"EDGE", src, child, (infoOf cfg child).mec, 0⟩]}) s) s1 := rfl
  obtain ⟨r1, r2, r3⟩ := releaseEdges_spec cfg s1.nodesFinishedLastLc s1
  rw [← hrel] at r1 r2 r3
  set s2 : SchedState := {releaseEdges cfg s1 with nodesFinishedLastLc := []} with hs2def
  have hs2r : eqExceptQ s1 s2 → True := fun _ => trivial
  obtain ⟨d1, d2, d3⟩ := deadlinePromote_spec cfg s2
  obtain ⟨c1, cpromos, cmand, _, _, csrc, copt⟩ := stepC_spec cfg (deadlinePromote cfg s2)
  obtain ⟨e1, e2, e3, e4, e5, e6, e7, e8, e9, e10, e11, e12, e13, e14, e15⟩ := r1
  obtain ⟨f1, f2, f3, f4, f5, f6, f7, f8, f9, f10, f11, f12, f13, f14, f15⟩ := d1
  obtain ⟨g1', g2', g3', g4', g5', g6', g7', g8', g9', g10', g11', g12', g13', g14', g15'⟩ := c1
  -- field equations
  have hopt2 : s2.optionalQ = (releaseEdges cfg s1).optionalQ := rfl
  have hmand2 : s2.mandatoryQ = (releaseEdges cfg s1).mandatoryQ := rfl
  refine ⟨?_, ?_, ?_, ?_, ?_, ?_, ?_, ?_, ?_, ?_, ?_, ?_, ?_⟩
  · rw [g1', f1]
    show s2.currentLc = _
    rw [e1]
  · rw [g2', f2]
    show s2.pc = _
    rw [e2]
  · rw [g3', f3]
    show s2.finished = _
    rw [e3]
  · rw [g6', f6]
    show s2.peEvents = _
    rw [e6]
  · rw [g7', f7]
    show s2.nfuEvents = _
    rw [e7]
  · rw [g8', f8]
    show s2.freePes = _
    rw [e8]
  · rw [g9', f9]
    show s2.nfuBusyTimer = _
    rw [e9]
  · rw [g10', f10]
    show s2.remDep = _
    rw [e10]
  · rw [g11', f11]
    show s2.fusionRem = _
    rw [e11]
  · rw [g15', f15]
    show s2.stdoutLog = _
    rw [e15]
  · rw [g4', f4]
    show s2.finishedThisLc = _
    rw [e4]
  · intro t ht
    obtain ⟨t0, ht0, sl, hteq⟩ := copt t ht
    have ht0' : t0 ∈ (releaseEdges cfg s1).optionalQ := by
      have h' : t0 ∈ (deadlinePromote cfg s2).optionalQ := ht0
      rw [d2] at h'
      exact h'
    rcases r3 t0 ht0' with h | ⟨ha, hb, hc, _, _⟩
    · exact ⟨t0, Or.inr ⟨sl, hteq⟩, Or.inl h⟩
    · obtain ⟨src, _, hmem⟩ := hb
      exact ⟨t0, Or.inr ⟨sl, hteq⟩, Or.inr ⟨ha, ⟨src, hmem⟩, hc⟩⟩
  · intro t ht
    rw [cmand] at ht
    rcases List.mem_append.mp ht with h | h
    · rcases d3 t h with h' | h'
      · rw [hmand2, r2] at h'
        exact Or.inl h'
      · exact Or.inr (Or.inl h')
    · obtain ⟨t0, ht0, sl, hteq⟩ := csrc t h
      have ht0' : t0 ∈ (releaseEdges cfg s1).optionalQ := by
        have h' : t0 ∈ (deadlinePromote cfg s2).optionalQ := ht0
        rw [d2] at h'
        exact h'
      rcases r3 t0 ht0' with h' | ⟨ha, hb, hc, _, _⟩
      · exact Or.inr (Or.inr ⟨t0, Or.inr ⟨sl, hteq⟩, Or.inl h'⟩)
      · obtain ⟨src, _, hmem⟩ := hb
        exact Or.inr (Or.inr ⟨t0, Or.inr ⟨sl, hteq⟩, Or.inr ⟨ha, ⟨src, hmem⟩, hc⟩⟩)

theorem recordStats_pc (cfg : SchedCfg) (s : SchedState) : (recordStats cfg s).pc = s.pc := rfl

theorem recordStats_peEvents (cfg : SchedCfg) (s : SchedState) :
    (recordStats cfg s).peEvents = s.peEvents := rfl

theorem recordStats_nfuEvents (cfg : SchedCfg) (s : SchedState) :
    (recordStats cfg s).nfuEvents = s.nfuEvents := rfl

theorem recordStats_timer (cfg : SchedCfg) (s : SchedState) :
    (recordStats cfg s).nfuBusyTimer = s.nfuBusyTimer := rfl

theorem pcIter_eq (cfg : SchedCfg) (s : SchedState) :
    pcIter cfg s = recordStats cfg (issuePhase (retirePhase cfg s)) := rfl

theorem invRes_pcIter (cfg : SchedCfg) (s0 : SchedState) (h : InvRes cfg s0) :
    InvRes cfg (pcIter cfg s0) := by
  obtain ⟨h1, h2, h3, h4, h5⟩ := h
  obtain ⟨r1, r2, r3, r4, r5, r6, r7, r8, r9, r10, r11, r12, r13⟩ := retirePhase_spec cfg s0
  obtain ⟨i1, i2, i3, i4, i5, i6, i7, i8, i9, i10, i11, i12, i13, i14⟩ :=
    issuePhase_spec (retirePhase cfg s0)
  have hpe1 : (retirePhase cfg s0).peEvents = [] := by
    rw [r3, List.filter_eq_nil]
    intro e he
    simp only [decide_eq_true_eq, decide_not, Bool.not_eq_true', decide_eq_false_iff_not,
      Decidable.not_not]
    exact h2 e he
  have hnfu1 : ∀ e ∈ (retirePhase cfg s0).nfuEvents, e.finish = s0.pc + 2 := by
    intro e he
    rw [r4] at he
    have hmem := List.mem_of_mem_filter he
    have hcond := List.of_mem_filter he
    simp only [decide_not, Bool.not_eq_true', decide_eq_false_iff_not] at hcond
    have := (h4 e hmem).2
    omega
  have hnfu1pw : (retirePhase cfg s0).nfuEvents.Pairwise (fun x y => x.finish ≠ y.finish) := by
    rw [r4]
    exact h5.filter _
  have hfree1 : (retirePhase cfg s0).freePes = (cfg.peLimit : Int) := by
    rw [r5, hpe1]
    simp
  unfold InvRes
  rw [pcIter_eq, recordStats_pc, recordStats_peEvents, recordStats_nfuEvents,
    recordStats_timer, i2, r2]
  refine ⟨?_, ?_, ?_, ?_, ?_⟩
  · have hsum := i9
    rw [hpe1, hfree1] at hsum
    have hge := i10 (by rw [hfree1]; exact Int.natCast_nonneg cfg.peLimit)
    simp only [List.length_nil, Nat.cast_zero, Int.zero_add] at hsum
    omega
  · intro e he
    rcases i11 e he with hmem | ⟨t, ht1, ht2, he2⟩
    · rw [hpe1] at hmem
      exact absurd hmem (List.not_mem_nil e)
    · subst he2
      dsimp only
      rw [r2]
  · rcases i8 with ⟨hev, ht⟩ | ⟨t, ht1, ht2, ht3, ht, hev⟩
    · rw [ht, r6]
      omega
    · rw [ht]
  · intro e he
    rcases i8 with ⟨hev, ht⟩ | ⟨t, ht1, ht2, ht3, ht, hev⟩
    · rw [hev] at he
      have := hnfu1 e he
      omega
    · rw [hev] at he
      rcases List.mem_append.mp he with hm | hm
      · have := hnfu1 e hm
        omega
      · rw [List.mem_singleton] at hm
        subst hm
        dsimp only
        rw [r2]
        omega
  · rcases i8 with ⟨hev, ht⟩ | ⟨t, ht1, ht2, ht3, ht, hev⟩
    · rw [hev]
      exact hnfu1pw
    · rw [hev, List.pairwise_append]
      refine ⟨hnfu1pw, List.pairwise_singleton _ _, ?_⟩
      intro a ha b hb
      rw [List.mem_singleton] at hb
      subst hb
      have hfa := hnfu1 a ha
      dsimp only
      rw [hfa, r2]
      omega

theorem invRes_lcBoundary (cfg : SchedCfg) (s0 : SchedState) (h : InvRes cfg s0) :
    InvRes cfg (lcBoundary cfg s0) := by
  obtain ⟨h1, h2, h3, h4, h5⟩ := h
  obtain ⟨l1, l2, l3, l4, l5, l6, l7, l8, l9, l10, l11, l12, l13⟩ := lcBoundary_spec cfg s0
  refine ⟨?_, ?_, ?_, ?_, ?_⟩
  · rw [l4]; exact h1
  · intro e he
    rw [l4] at he
    rw [l2]
    exact h2 e he
  · rw [l7]; exact h3
  · intro e he
    rw [l5] at he
    rw [l2]
    exact h4 e he
  · rw [l5]; exact h5

theorem invRes_reach {cfg : SchedCfg} {s0 s : SchedState} (h0 : InvRes cfg s0)
    (h : Reach cfg s0 s) : InvRes cfg s := by
  induction h with
  | refl => exact h0
  | lcb _ ih => exact invRes_lcBoundary _ _ ih
  | pci _ ih => exact invRes_pcIter _ _ ih
  | flush _ ih => exact ih
  | warn _ ih => exact ih

theorem nfu_len_le_two (l : List Event) (a b : Nat)
    (hab : ∀ e ∈ l, e.finish = a ∨ e.finish = b)
    (hpw : l.Pairwise (fun x y => x.finish ≠ y.finish)) : l.length ≤ 2 := by
  match l, hab, hpw with
  | [], _, _ => simp
  | [e], _, _ => simp
  | [e1, e2], _, _ => simp
  | e1 :: e2 :: e3 :: rest, hab, hpw =>
    exfalso
    have h12 : e1.finish ≠ e2.finish := (List.pairwise_cons.mp hpw).1 e2 (by simp)
    have h13 : e1.finish ≠ e3.finish := (List.pairwise_cons.mp hpw).1 e3 (by simp)
    have h23 : e2.finish ≠ e3.finish :=
      (List.pairwise_cons.mp (List.pairwise_cons.mp hpw).2).1 e3 (by simp)
    have a1 := hab e1 (by simp)
    have a2 := hab e2 (by simp)
    have a3 := hab e3 (by simp)
    rcases a1 with a1 | a1 <;> rcases a2 with a2 | a2 <;> rcases a3 with a3 | a3 <;> omega

theorem buildCfg_peLimit (dag : List RNode) (mecm : List (String × Nat)) (pe : Nat) :
    (buildCfg dag mecm pe).peLimit = pe := rfl

theorem invRes_init (dag : List RNode) (mecm : List (String × Nat)) (pe : Nat) :
    InvRes (buildCfg dag mecm pe) (initState dag pe) := by
  refine ⟨?_, ?_, ?_, ?_, ?_⟩
  · show (List.length [] : Nat) ≤ (buildCfg dag mecm pe).peLimit
    simp
  · intro e he
    exact absurd he (List.not_mem_nil e)
  · show (0 : Nat) ≤ 1
    omega
  · intro e he
    exact absurd he (List.not_mem_nil e)
  · exact List.Pairwise.nil

/-- C7: resource bounds at every reachable scheduler state. The PE bound
|peEvents| ≤ pe_limit holds as specified, but the NFU bound is 2, not 1:
fusion events last two cycles while the busy timer frees the NFU after one,
so two fusion events can be in flight. -/
theorem scheduler_C7 (dag : List RNode) (mecm : List (String × Nat)) (pe : Nat)
    (s : SchedState) (h : Reach (buildCfg dag mecm pe) (initState dag pe) s) :
    s.peEvents.length ≤ pe ∧ s.nfuEvents.length ≤ 2 := by
  obtain ⟨h1, h2, h3, h4, h5⟩ := invRes_reach (invRes_init dag mecm pe) h
  refine ⟨?_, ?_⟩
  · rw [buildCfg_peLimit] at h1
    exact h1
  · refine nfu_len_le_two s.nfuEvents (s.pc + 1) (s.pc + 2) ?_ h5
    intro e he
    have := h4 e he
    omega

/-- C7 witness: the invariant instantiated at the initial state of a
concrete run. -/
theorem scheduler_C7_witness :
    (initState c7dag 10).peEvents.length ≤ 10 ∧ (initState c7dag 10).nfuEvents.length ≤ 2 :=
  scheduler_C7 c7dag c7mec 10 (initState c7dag 10) Reach.refl

/-- C7 counterexample: with two parentless FUSION nodes both due at LC 1, the
state after the first LC boundary and two physical cycles is reachable and
carries two in-flight NFU events, refuting the stated bound |nfuEvents| ≤ 1. -/
theorem scheduler_C7_counterexample :
    Reach c7cfg (initState c7dag 10) c7s2 ∧ ¬ (c7s2.nfuEvents.length ≤ 1) := by
  constructor
  · show Reach c7cfg (initState c7dag 10)
      (pcIter c7cfg (pcIter c7cfg (lcBoundary c7cfg (initState c7dag 10))))
    exact Reach.pci (Reach.pci (Reach.lcb Reach.refl))
  · decide

/-- C6: at every LC boundary, with sB the state after edge release (Step A) and
deadline promotion (Step B), Step C computes slack(t) = mec(t) - current_lc -
remaining_edges(t) for every target t, stamps it on all of the target's optional
edge tasks, and when slack(t) ≤ 0 moves exactly the first task (in encounter
order) to the mandatory queue, keeping the rest in the optional queue. -/
theorem scheduler_C6 (cfg : SchedCfg) (s0 : SchedState) :
    ∃ sB : SchedState,
      sB = deadlinePromote cfg
        {(releaseEdges cfg {s0 with currentLc := s0.currentLc + 1, finishedThisLc := []}) with
          nodesFinishedLastLc := []} ∧
      lcBoundary cfg s0 = stepC cfg sB ∧
      (∀ k, calcSlack cfg sB k =
        ((infoOf cfg k).mec : Int) - (sB.currentLc : Int) - dget sB.remDep k 0) ∧
      ∃ promos, (lcBoundary cfg s0).mandatoryQ = sB.mandatoryQ ++ promos ∧
        (∀ k : String, sB.optionalQ.filter (fun u => u.id = k) = [] →
          promos.filter (fun u => u.id = k) = [] ∧
          (lcBoundary cfg s0).optionalQ.filter (fun u => u.id = k) = []) ∧
        (∀ k : String, sB.optionalQ.filter (fun u => u.id = k) ≠ [] →
          (calcSlack cfg sB k ≤ 0 →
            promos.filter (fun u => u.id = k) =
              ((sB.optionalQ.filter (fun u => u.id = k)).map
                (fun u => {u with slack := calcSlack cfg sB k})).take 1 ∧
            (lcBoundary cfg s0).optionalQ.filter (fun u => u.id = k) =
              ((sB.optionalQ.filter (fun u => u.id = k)).map
                (fun u => {u with slack := calcSlack cfg sB k})).tail) ∧
          (0 < calcSlack cfg sB k →
            promos.filter (fun u => u.id = k) = [] ∧
            (lcBoundary cfg s0).optionalQ.filter (fun u => u.id = k) =
              (sB.optionalQ.filter (fun u => u.id = k)).map
                (fun u => {u with slack := calcSlack cfg sB k}))) ∧
        (∀ u ∈ promos, ∃ u0 ∈ sB.optionalQ, ∃ sl : Int, u = {u0 with slack := sl}) ∧
        (∀ u ∈ (lcBoundary cfg s0).optionalQ,
          ∃ u0 ∈ sB.optionalQ, ∃ sl : Int, u = {u0 with slack := sl}) := by
  refine ⟨deadlinePromote cfg
    {(releaseEdges cfg {s0 with currentLc := s0.currentLc + 1, finishedThisLc := []}) with
      nodesFinishedLastLc := []}, rfl, rfl, fun k => rfl, ?_⟩
  have hb : lcBoundary cfg s0 = stepC cfg (deadlinePromote cfg
      {(releaseEdges cfg {s0 with currentLc := s0.currentLc + 1, finishedThisLc := []}) with
        nodesFinishedLastLc := []}) := rfl
  rw [hb]
  obtain ⟨heq, promos, h1, h2, h3, h4, h5⟩ := stepC_spec cfg (deadlinePromote cfg
    {(releaseEdges cfg {s0 with currentLc := s0.currentLc + 1, finishedThisLc := []}) with
      nodesFinishedLastLc := []})
  exact ⟨promos, h1, h2, h3, h4, h5⟩

theorem c9_boundary (k : Nat) :
    lcBoundary c9cfg (idleState k) =
      ⟨k + 1, k, [], [], [], [], [], [], [], 1, 0, [("P", 0)], [], 0, 0, k, []⟩ := by
  simp [lcBoundary, idleState, releaseEdges, deadlinePromote, stepC, ggroups, promBody,
    c9cfg, c9dag, c9mec, buildCfg, buildStep, dinsert, adjAdd, mecLookup, fusGet, remGet,
    dget]

theorem c9_pc (k : Nat) :
    pcIter c9cfg (⟨k + 1, k, [], [], [], [], [], [], [], 1, 0, [("P", 0)], [], 0, 0, k,
      []⟩ : SchedState) = idleState (k + 1) := by
  simp [pcIter, retirePhase, issuePhase, recordStats, retireFold, mandFold, optFold,
    idleState, c9cfg, c9dag, c9mec, buildCfg, buildStep]

theorem pcLoop_one (cfg : SchedCfg) (s : SchedState) :
    pcLoop cfg 1 s =
      (if (pcIter cfg s).mandatoryQ.isEmpty then ((pcIter cfg s), true)
       else pcLoop cfg 0 (pcIter cfg s)) := rfl

theorem c9_idle_step (k : Nat) : lcIter c9cfg (idleState k) = (idleState (k + 1), true) := by
  have hb := c9_boundary k
  have hp := c9_pc k
  show ({(pcLoop c9cfg ((lcBoundary c9cfg (idleState k)).mandatoryQ.length + 1)
      (lcBoundary c9cfg (idleState k))).1 with
    nodesFinishedLastLc := (pcLoop c9cfg ((lcBoundary c9cfg (idleState k)).mandatoryQ.length + 1)
      (lcBoundary c9cfg (idleState k))).1.finishedThisLc},
    (pcLoop c9cfg ((lcBoundary c9cfg (idleState k)).mandatoryQ.length + 1)
      (lcBoundary c9cfg (idleState k))).2) = (idleState (k + 1), true)
  rw [hb]
  simp only [List.length_nil, Nat.zero_add, pcLoop_one, hp]
  simp [idleState]

theorem schedLoop_succ (cfg : SchedCfg) (fuel : Nat) (s : SchedState) :
    schedLoop cfg (fuel + 1) s =
      (if s.finished.length < cfg.total then
        if s.currentLc > 5000 then
          ({s with stdoutLog := s.stdoutLog ++ ["timeout " ++ toString s.currentLc]}, true)
        else
          if (lcIter cfg s).2 then schedLoop cfg fuel (lcIter cfg s).1
          else ((lcIter cfg s).1, false)
      else (s, true)) := rfl

theorem c9_loop (n : Nat) : ∀ k fuel, k + n = 5001 → n + 1 ≤ fuel →
    schedLoop c9cfg fuel (idleState k) =
      ({idleState 5001 with stdoutLog := ["timeout 5001"]}, true) := by
  induction n with
  | zero =>
    intro k fuel h hf
    have hk : k = 5001 := by omega
    subst hk
    match fuel, hf with
    | f + 1, _ => rfl
  | succ n ih =>
    intro k fuel h hf
    match fuel, hf with
    | f + 1, hf =>
      rw [schedLoop_succ]
      rw [if_pos (show (idleState k).finished.length < c9cfg.total from Nat.zero_lt_one)]
      rw [if_neg (show ¬ ((idleState k).currentLc > 5000) from by
        show ¬ (k > 5000)
        omega)]
      rw [c9_idle_step]
      exact ih (k + 1) f (by omega) (by omega)

/-- C9: on a DAG whose only node is a parentless PARTIAL, which the scheduler
can never finish, the run exits through the max_lc_limit cap after LC 5001; the
only failure surface is the printed "timeout 5001" line, and the function
returns through the same normal path as a successful run (no marker, no
distinct failure status), with nothing finished. -/
theorem scheduler_C9 :
    (runScheduler c9dag c9mec 1).2 = true ∧
    (runScheduler c9dag c9mec 1).1.currentLc = 5001 ∧
    (runScheduler c9dag c9mec 1).1.finished = [] ∧
    (runScheduler c9dag c9mec 1).1.stdoutLog = ["timeout 5001"] := by
  have h : runScheduler c9dag c9mec 1 =
      ({idleState 5001 with stdoutLog := ["timeout 5001"]}, true) := by
    show schedLoop c9cfg 6000 (initState c9dag 1) = _
    have h0 : initState c9dag 1 = idleState 0 := rfl
    rw [h0]
    exact c9_loop 5001 0 6000 rfl (by omega)
  rw [h]
  exact ⟨rfl, rfl, rfl, rfl⟩

/-- C8 counterexample: for the chain DAG 0→1→2 with pe_limit 10, the
scheduler's final physical-cycle counter is not the specified 5. -/
theorem scheduler_C8_counterexample :
    (runScheduler s1dag s1mec 10).1.statsTotal ≠ 5 := by decide

/-- C8 (amended): for the chain DAG 0→1→2 (threshold 5, all nodes NORMAL) the
compiler yields MEC map {0:1, 1:3, 2:5} as specified, and the scheduler with
pe_limit 10 terminates with all three nodes finished, but at total_pc = 8
rather than 5. -/
theorem scheduler_C8 :
    compMec s1dag "0" = 1 ∧ compMec s1dag "1" = 3 ∧ compMec s1dag "2" = 5 ∧
    (runScheduler s1dag s1mec 10).2 = true ∧
    (runScheduler s1dag s1mec 10).1.finished.length = 3 ∧
    (runScheduler s1dag s1mec 10).1.statsTotal = 8 := by
  refine ⟨?_, ?_, ?_, ?_, ?_, ?_⟩ <;> decide

theorem dinsert_keys_map {β : Type} (l : List (String × β)) (k : String) (v : β) :
    (dinsert l k v).map Prod.fst = l.map Prod.fst ∨
    ((dinsert l k v).map Prod.fst = l.map Prod.fst ++ [k] ∧ k ∉ l.map Prod.fst) := by
  unfold dinsert
  split
  · left
    rw [List.map_map]
    apply List.map_congr_left
    intro p _
    by_cases hk : p.1 = k
    · simp [hk]
    · simp [hk]
  · right
    rename_i hany
    constructor
    · simp
    · intro hmem
      obtain ⟨q, hq, hqe⟩ := List.mem_map.mp hmem
      exact hany (List.any_eq_true.mpr ⟨q, hq, by simp [hqe]⟩)

theorem dinsert_keys_nodup {β : Type} (l : List (String × β)) (k : String) (v : β)
    (h : (l.map Prod.fst).Nodup) : ((dinsert l k v).map Prod.fst).Nodup := by
  rcases dinsert_keys_map l k v with h1 | ⟨h1, h2⟩
  · rw [h1]; exact h
  · rw [h1]
    simp [List.nodup_append, h, h2]

theorem dinsert_mem_src {β : Type} {l : List (String × β)} {k : String} {v : β}
    {pr : String × β} (h : pr ∈ dinsert l k v) : pr ∈ l ∨ pr = (k, v) := by
  unfold dinsert at h
  split at h
  · obtain ⟨q, hq, hqe⟩ := List.mem_map.mp h
    by_cases hk : q.1 = k
    · rw [if_pos hk] at hqe
      exact Or.inr hqe.symm
    · rw [if_neg hk] at hqe
      exact Or.inl (hqe ▸ hq)
  · rcases List.mem_append.mp h with h | h
    · exact Or.inl h
    · exact Or.inr (List.mem_singleton.mp h)

theorem dget_mem_nodup {β : Type} {l : List (String × β)} {k : String} {v : β} (d : β)
    (hnd : (l.map Prod.fst).Nodup) (h : (k, v) ∈ l) : dget l k d = v := by
  induction l with
  | nil => exact absurd h (List.not_mem_nil _)
  | cons q t ih =>
    rw [List.map_cons, List.nodup_cons] at hnd
    rcases List.mem_cons.mp h with h1 | h1
    · rw [← h1]
      simp [dget, List.find?]
    · by_cases hk : q.1 = k
      · exact absurd (hk ▸ List.mem_map.mpr ⟨(k, v), h1, rfl⟩) hnd.1
      · have hfind : List.find? (fun p => decide (p.1 = k)) (q :: t) =
            List.find? (fun p => decide (p.1 = k)) t := by
          rw [List.find?_cons_of_neg]
          simpa using hk
        have heq : dget (q :: t) k d = dget t k d := by
          unfold dget
          rw [hfind]
        rw [heq]
        exact ih hnd.2 h1

theorem dget_adjmap_mem {l : List (String × List String)} {k v src x : String}
    (h : x ∈ dget (l.map (fun p => if p.1 = k then (p.1, p.2 ++ [v]) else p)) src []) :
    x ∈ dget l src [] ∨ x = v := by
  induction l with
  | nil => simp [dget, List.find?] at h
  | cons q t ih =>
    rw [List.map_cons] at h
    have hfst : (if q.1 = k then (q.1, q.2 ++ [v]) else q).1 = q.1 := by
      by_cases hk : q.1 = k <;> simp [hk]
    by_cases hq : q.1 = src
    · have hL : dget ((if q.1 = k then (q.1, q.2 ++ [v]) else q) ::
          t.map (fun p => if p.1 = k then (p.1, p.2 ++ [v]) else p)) src [] =
          (if q.1 = k then (q.1, q.2 ++ [v]) else q).2 := by
        unfold dget
        rw [List.find?_cons_of_pos _ (by rw [hfst]; simp [hq])]
      have hR : dget (q :: t) src [] = q.2 := by
        unfold dget
        rw [List.find?_cons_of_pos _ (by simp [hq])]
      rw [hL] at h
      rw [hR]
      by_cases hk : q.1 = k
      · rw [if_pos hk] at h
        rcases List.mem_append.mp h with h2 | h2
        · exact Or.inl h2
        · exact Or.inr (List.mem_singleton.mp h2)
      · rw [if_neg hk] at h
        exact Or.inl h
    · have hL : dget ((if q.1 = k then (q.1, q.2 ++ [v]) else q) ::
          t.map (fun p => if p.1 = k then (p.1, p.2 ++ [v]) else p)) src [] =
          dget (t.map (fun p => if p.1 = k then (p.1, p.2 ++ [v]) else p)) src [] := by
        unfold dget
        rw [List.find?_cons_of_neg _ (by rw [hfst]; simp [hq])]
      have hR : dget (q :: t) src [] = dget t src [] := by
        unfold dget
        rw [List.find?_cons_of_neg _ (by simp [hq])]
      rw [hL] at h
      rw [hR]
      exact ih h

theorem dget_append_single_mem {l : List (String × List String)} {k v src x : String}
    (h : x ∈ dget (l ++ [(k, [v])]) src []) : x ∈ dget l src [] ∨ x = v := by
  induction l with
  | nil =>
    by_cases hk : k = src
    · simp [dget, List.find?, hk] at h
      exact Or.inr h
    · simp [dget, List.find?, hk] at h
  | cons q t ih =>
    rw [List.cons_append] at h
    by_cases hq : q.1 = src
    · have hL : dget (q :: (t ++ [(k, [v])])) src [] = q.2 := by
        unfold dget
        rw [List.find?_cons_of_pos _ (by simp [hq])]
      have hR : dget (q :: t) src [] = q.2 := by
        unfold dget
        rw [List.find?_cons_of_pos _ (by simp [hq])]
      rw [hL] at h
      rw [hR]
      exact Or.inl h
    · have hL : dget (q :: (t ++ [(k, [v])])) src [] = dget (t ++ [(k, [v])]) src [] := by
        unfold dget
        rw [List.find?_cons_of_neg _ (by simp [hq])]
      have hR : dget (q :: t) src [] = dget t src [] := by
        unfold dget
        rw [List.find?_cons_of_neg _ (by simp [hq])]
      rw [hL] at h
      rw [hR]
      exact ih h

theorem dget_adjAdd_mem {l : List (String × List String)} {k v src x : String}
    (h : x ∈ dget (adjAdd l k v) src []) : x ∈ dget l src [] ∨ x = v := by
  unfold adjAdd at h
  split at h
  · exact dget_adjmap_mem h
  · exact dget_append_single_mem h

theorem adjFold_mem (nid src x : String) :
    ∀ (parents : List String) (a : List (String × List String)),
      x ∈ dget (parents.foldl (fun a p => adjAdd a p nid) a) src [] →
      x ∈ dget a src [] ∨ (x = nid ∧ parents ≠ []) := by
  intro parents
  induction parents with
  | nil => exact fun a h => Or.inl h
  | cons p ps ih =>
    intro a h
    rw [List.foldl_cons] at h
    rcases ih (adjAdd a p nid) h with h1 | h1
    · rcases dget_adjAdd_mem h1 with h2 | h2
      · exact Or.inl h2
      · exact Or.inr ⟨h2, List.cons_ne_nil p ps⟩
    · exact Or.inr ⟨h1.1, List.cons_ne_nil p ps⟩

theorem buildFold_info_nodup (mecm : List (String × Nat)) :
    ∀ (dag : List RNode) (acc : List (String × NodeInfo) × List (String × List String)),
      (acc.1.map Prod.fst).Nodup → ((dag.foldl (buildStep mecm) acc).1.map Prod.fst).Nodup := by
  intro dag
  induction dag with
  | nil => exact fun acc h => h
  | cons n t ih =>
    intro acc h
    rw [List.foldl_cons]
    exact ih _ (dinsert_keys_nodup _ _ _ h)

theorem buildFold_info_src (mecm : List (String × Nat)) :
    ∀ (dag : List RNode) (acc : List (String × NodeInfo) × List (String × List String))
      (pr : String × NodeInfo), pr ∈ (dag.foldl (buildStep mecm) acc).1 →
      pr ∈ acc.1 ∨ ∃ item ∈ dag,
        pr = (item.id, ⟨item.type, mecLookup mecm item.id, item.parents⟩) := by
  intro dag
  induction dag with
  | nil => exact fun acc pr h => Or.inl h
  | cons n t ih =>
    intro acc pr h
    rw [List.foldl_cons] at h
    rcases ih _ pr h with h1 | ⟨item, hm, he⟩
    · have h2 : pr ∈ dinsert acc.1 n.id ⟨n.type, mecLookup mecm n.id, n.parents⟩ := h1
      rcases dinsert_mem_src h2 with h3 | h3
      · exact Or.inl h3
      · exact Or.inr ⟨n, List.mem_cons_self n t, h3⟩
    · exact Or.inr ⟨item, List.mem_cons_of_mem n hm, he⟩

theorem buildFold_adj_mem (mecm : List (String × Nat)) (src x : String) :
    ∀ (dag : List RNode) (acc : List (String × NodeInfo) × List (String × List String)),
      x ∈ dget (dag.foldl (buildStep mecm) acc).2 src [] →
      x ∈ dget acc.2 src [] ∨ ∃ item ∈ dag, x = item.id ∧ item.parents ≠ [] := by
  intro dag
  induction dag with
  | nil => exact fun acc h => Or.inl h
  | cons n t ih =>
    intro acc h
    rw [List.foldl_cons] at h
    rcases ih _ h with h1 | ⟨item, hm, he⟩
    · have h2 : x ∈ dget (n.parents.foldl (fun a p => adjAdd a p n.id) acc.2) src [] := h1
      rcases adjFold_mem n.id src x n.parents acc.2 h2 with h3 | h3
      · exact Or.inl h3
      · exact Or.inr ⟨n, List.mem_cons_self n t, h3⟩
    · exact Or.inr ⟨item, List.mem_cons_of_mem n hm, he⟩

theorem buildCfg_info_nodup (dag : List RNode) (mecm : List (String × Nat)) (pe : Nat) :
    ((buildCfg dag mecm pe).info.map Prod.fst).Nodup := by
  have h : (buildCfg dag mecm pe).info = (dag.foldl (buildStep mecm) ([], [])).1 := rfl
  rw [h]
  exact buildFold_info_nodup mecm dag ([], []) (by simp)

theorem buildCfg_info_src {dag : List RNode} {mecm : List (String × Nat)} {pe : Nat}
    {pr : String × NodeInfo} (h : pr ∈ (buildCfg dag mecm pe).info) :
    ∃ item ∈ dag, pr = (item.id, ⟨item.type, mecLookup mecm item.id, item.parents⟩) := by
  have h0 : (buildCfg dag mecm pe).info = (dag.foldl (buildStep mecm) ([], [])).1 := rfl
  rw [h0] at h
  rcases buildFold_info_src mecm dag ([], []) pr h with h1 | h1
  · exact absurd h1 (List.not_mem_nil pr)
  · exact h1

theorem buildCfg_adj_val {dag : List RNode} {mecm : List (String × Nat)} {pe : Nat}
    {src x : String} (h : x ∈ adjOf (buildCfg dag mecm pe) src) :
    ∃ item ∈ dag, x = item.id ∧ item.parents ≠ [] := by
  have h0 : adjOf (buildCfg dag mecm pe) src =
      dget (dag.foldl (buildStep mecm) ([], [])).2 src [] := rfl
  rw [h0] at h
  rcases buildFold_adj_mem mecm src x dag ([], []) h with h1 | h1
  · simp [dget, List.find?] at h1
  · exact h1

theorem infoOf_mem {dag : List RNode} {mecm : List (String × Nat)} {pe : Nat}
    {pr : String × NodeInfo} (h : pr ∈ (buildCfg dag mecm pe).info) :
    infoOf (buildCfg dag mecm pe) pr.1 = pr.2 := by
  unfold infoOf
  exact dget_mem_nodup _ (buildCfg_info_nodup dag mecm pe) (by rwa [Prod.mk.eta])

theorem finished_lt_of_missing {ids : List String} {pid : String} {fin : List String}
    (hids : ids.Nodup) (hpid : pid ∈ ids) (hsub : ∀ x ∈ fin, x ∈ ids ∧ x ≠ pid)
    (hnd : fin.Nodup) : fin.length < ids.length := by
  have hsub2 : fin ⊆ ids.erase pid := fun x hx =>
    (List.mem_erase_of_ne (hsub x hx).2).mpr (hsub x hx).1
  have h1 : fin.length ≤ (ids.erase pid).length := (hnd.subperm hsub2).length_le
  have h2 : (ids.erase pid).length = ids.length - 1 := List.length_erase_of_mem hpid
  have h3 : 0 < ids.length := List.length_pos_of_mem hpid
  omega

theorem recordStats_optionalQ (cfg : SchedCfg) (s : SchedState) :
    (recordStats cfg s).optionalQ = s.optionalQ := rfl

theorem recordStats_mandatoryQ (cfg : SchedCfg) (s : SchedState) :
    (recordStats cfg s).mandatoryQ = s.mandatoryQ := rfl

theorem recordStats_finished (cfg : SchedCfg) (s : SchedState) :
    (recordStats cfg s).finished = s.finished := rfl

theorem invTen_init (cfg : SchedCfg) (pid : String) (ids : List String) (dag : List RNode)
    (pe : Nat) : InvTen cfg pid ids (initState dag pe) := by
  refine ⟨?_, ?_, ?_, ?_, ?_⟩
  · intro t ht
    exact absurd ht (List.not_mem_nil t)
  · intro t ht
    exact absurd ht (List.not_mem_nil t)
  · intro e he
    exact absurd he (List.not_mem_nil e)
  · intro x hx
    exact absurd hx (List.not_mem_nil x)
  · exact List.Pairwise.nil

theorem invTen_lcBoundary (cfg : SchedCfg) (pid : String) (ids : List String)
    (hadj : ∀ src x, x ∈ adjOf cfg src → x ∈ ids ∧ x ≠ pid)
    (hinfo : ∀ pr ∈ cfg.info, (pr.2.ntype = "NORMAL" ∨ pr.2.ntype = "FUSION") →
      pr.1 ∈ ids ∧ pr.1 ≠ pid ∧ (infoOf cfg pr.1).ntype ≠ "PARTIAL")
    (s0 : SchedState) (h : InvTen cfg pid ids s0) : InvTen cfg pid ids (lcBoundary cfg s0) := by
  obtain ⟨hopt, hmand, hev, hfin, hnodup⟩ := h
  obtain ⟨l1, l2, l3, l4, l5, l6, l7, l8, l9, l10, l11, l12, l13⟩ := lcBoundary_spec cfg s0
  have hedge : ∀ t, EdgeShaped cfg s0 t → t.ttype = "EDGE" ∧ t.id ∈ ids ∧ t.id ≠ pid := by
    intro t ht
    obtain ⟨t0, hteq, hsrc⟩ := ht
    have htt : t.ttype = t0.ttype ∧ t.id = t0.id := by
      rcases hteq with h | ⟨sl, h⟩ <;> subst h <;> exact ⟨rfl, rfl⟩
    rcases hsrc with hq | ⟨he, ⟨src, hin⟩, _⟩
    · have h1 := hopt t0 hq
      exact ⟨htt.1.trans h1.1, htt.2 ▸ h1.2.1, htt.2 ▸ h1.2.2⟩
    · have h1 := hadj src t0.id hin
      exact ⟨htt.1.trans he, htt.2 ▸ h1.1, htt.2 ▸ h1.2⟩
  refine ⟨?_, ?_, ?_, ?_, ?_⟩
  · intro t ht
    exact hedge t (l12 t ht)
  · intro t ht
    rcases l13 t ht with h1 | ⟨pr, hpr, hshape⟩ | h1
    · exact hmand t h1
    · rcases hshape with ⟨hteq, hnt⟩ | ⟨hteq, hnt⟩
      · have hi := hinfo pr hpr (Or.inr hnt)
        subst hteq
        exact ⟨Or.inr ⟨Or.inr rfl, hi.2.2⟩, hi.1, hi.2.1⟩
      · have hi := hinfo pr hpr (Or.inl hnt)
        subst hteq
        exact ⟨Or.inr ⟨Or.inl rfl, hi.2.2⟩, hi.1, hi.2.1⟩
    · have h2 := hedge t h1
      exact ⟨Or.inl h2.1, h2.2⟩
  · intro e he
    rw [l4, l5] at he
    exact hev e he
  · rw [l3]
    exact hfin
  · rw [l3]
    exact hnodup

theorem invTen_pcIter (cfg : SchedCfg) (pid : String) (ids : List String) (s0 : SchedState)
    (h : InvTen cfg pid ids s0) : InvTen cfg pid ids (pcIter cfg s0) := by
  obtain ⟨hopt, hmand, hev, hfin, hnodup⟩ := h
  obtain ⟨r1, r2, r3, r4, r5, r6, r7, r8, r9, r10, r11, r12, r13⟩ := retirePhase_spec cfg s0
  obtain ⟨i1, i2, i3, i4, i5, i6, i7, i8, i9, i10, i11, i12, i13, i14⟩ :=
    issuePhase_spec (retirePhase cfg s0)
  have hopt1 : ∀ t ∈ (retirePhase cfg s0).optionalQ,
      t.ttype = "EDGE" ∧ t.id ∈ ids ∧ t.id ≠ pid := by
    rw [r8]
    exact hopt
  have hmand1 : ∀ t ∈ (retirePhase cfg s0).mandatoryQ,
      (t.ttype = "EDGE" ∨ ((t.ttype = "UPDATE" ∨ t.ttype = "FUSION") ∧
        (infoOf cfg t.id).ntype ≠ "PARTIAL")) ∧ t.id ∈ ids ∧ t.id ≠ pid := by
    rw [r7]
    exact hmand
  have hev1 : ∀ e ∈ (retirePhase cfg s0).peEvents ++ (retirePhase cfg s0).nfuEvents,
      e.target ∈ ids ∧ e.target ≠ pid ∧
      ((e.etype = "UPDATE" ∨ e.etype = "FUSION") →
        (infoOf cfg e.target).ntype ≠ "PARTIAL") := by
    intro e he
    rcases List.mem_append.mp he with he | he
    · rw [r3] at he
      exact hev e (List.mem_append.mpr (Or.inl (List.mem_of_mem_filter he)))
    · rw [r4] at he
      exact hev e (List.mem_append.mpr (Or.inr (List.mem_of_mem_filter he)))
  have hfin1 : ∀ x ∈ (retirePhase cfg s0).finished, x ∈ ids ∧ x ≠ pid := by
    intro x hx
    rcases r12 x hx with h1 | ⟨e, hme, hxe⟩
    · exact hfin x h1
    · subst hxe
      exact ⟨(hev e hme).1, (hev e hme).2.1⟩
  have hnodup1 := r13 hnodup
  have htask : ∀ t : Task,
      (t ∈ (retirePhase cfg s0).mandatoryQ ∨ t ∈ (retirePhase cfg s0).optionalQ) →
      t.id ∈ ids ∧ t.id ≠ pid ∧
      ((t.ttype = "UPDATE" ∨ t.ttype = "FUSION") →
        (infoOf cfg t.id).ntype ≠ "PARTIAL") := by
    intro t htq
    rcases htq with hq | hq
    · obtain ⟨hcl, hin, hne⟩ := hmand1 t hq
      refine ⟨hin, hne, ?_⟩
      intro hup
      rcases hcl with hcl | hcl
      · rw [hcl] at hup
        rcases hup with hup | hup <;> exact absurd hup (by decide)
      · exact hcl.2
    · obtain ⟨hcl, hin, hne⟩ := hopt1 t hq
      refine ⟨hin, hne, ?_⟩
      intro hup
      rw [hcl] at hup
      rcases hup with hup | hup <;> exact absurd hup (by decide)
  unfold InvTen
  rw [pcIter_eq, recordStats_optionalQ, recordStats_mandatoryQ, recordStats_peEvents,
    recordStats_nfuEvents, recordStats_finished]
  refine ⟨?_, ?_, ?_, ?_, ?_⟩
  · intro t ht
    exact hopt1 t (i13 t ht)
  · intro t ht
    exact hmand1 t (i12 t ht)
  · intro e he
    rcases List.mem_append.mp he with he | he
    · rcases i11 e he with h1 | ⟨t, htq, htt, hte⟩
      · exact hev1 e (List.mem_append.mpr (Or.inl h1))
      · obtain ⟨hin, hne, himp⟩ := htask t htq
        subst hte
        refine ⟨hin, hne, ?_⟩
        intro hup
        exact himp hup
    · rcases i8 with ⟨heveq, _⟩ | ⟨t, htq, httf, _, _, heveq⟩
      · rw [heveq] at he
        exact hev1 e (List.mem_append.mpr (Or.inr he))
      · rw [heveq] at he
        rcases List.mem_append.mp he with he | he
        · exact hev1 e (List.mem_append.mpr (Or.inr he))
        · rw [List.mem_singleton] at he
          obtain ⟨hin, hne, himp⟩ := htask t htq
          subst he
          exact ⟨hin, hne, fun _ => himp (Or.inr httf)⟩
  · rw [i3]
    exact hfin1
  · rw [i3]
    exact hnodup1

theorem invTen_reach {cfg : SchedCfg} {pid : String} {ids : List String}
    {s0 s : SchedState}
    (hadj : ∀ src x, x ∈ adjOf cfg src → x ∈ ids ∧ x ≠ pid)
    (hinfo : ∀ pr ∈ cfg.info, (pr.2.ntype = "NORMAL" ∨ pr.2.ntype = "FUSION") →
      pr.1 ∈ ids ∧ pr.1 ≠ pid ∧ (infoOf cfg pr.1).ntype ≠ "PARTIAL")
    (h0 : InvTen cfg pid ids s0) (h : Reach cfg s0 s) : InvTen cfg pid ids s := by
  induction h with
  | refl => exact h0
  | lcb _ ih => exact invTen_lcBoundary cfg pid ids hadj hinfo _ ih
  | pci _ ih => exact invTen_pcIter cfg pid ids _ ih
  | flush _ ih => exact ih
  | warn _ ih => exact ih

theorem reach_pcLoop {cfg : SchedCfg} {s0 : SchedState} (n : Nat) :
    ∀ s, Reach cfg s0 s → Reach cfg s0 (pcLoop cfg n s).1 := by
  induction n with
  | zero => exact fun s h => h
  | succ n ih =>
    intro s h
    show Reach cfg s0 (if (pcIter cfg s).mandatoryQ.isEmpty then ((pcIter cfg s), true)
      else pcLoop cfg n (pcIter cfg s)).1
    by_cases hc : (pcIter cfg s).mandatoryQ.isEmpty
    · rw [if_pos hc]
      exact Reach.pci h
    · rw [if_neg hc]
      exact ih _ (Reach.pci h)

theorem reach_lcIter {cfg : SchedCfg} {s0 : SchedState} (s : SchedState)
    (h : Reach cfg s0 s) : Reach cfg s0 (lcIter cfg s).1 := by
  have h1 : Reach cfg s0
      (pcLoop cfg ((lcBoundary cfg s).mandatoryQ.length + 1) (lcBoundary cfg s)).1 :=
    reach_pcLoop _ _ (Reach.lcb h)
  exact Reach.flush h1

theorem schedLoop_reach (cfg : SchedCfg) (s0 : SchedState) :
    ∀ (fuel : Nat) (s : SchedState), Reach cfg s0 s →
      ∀ fin, schedLoop cfg fuel s = (fin, true) →
        Reach cfg s0 fin ∧ (cfg.total ≤ fin.finished.length ∨ fin.currentLc > 5000) := by
  intro fuel
  induction fuel with
  | zero =>
    intro s h fin heq
    have hb : false = true := congrArg Prod.snd heq
    exact absurd hb (by decide)
  | succ n ih =>
    intro s h fin heq
    rw [schedLoop_succ] at heq
    by_cases h1 : s.finished.length < cfg.total
    · rw [if_pos h1] at heq
      by_cases h2 : s.currentLc > 5000
      · rw [if_pos h2] at heq
        injection heq with hf hb
        subst hf
        refine ⟨Reach.warn h, Or.inr ?_⟩
        show s.currentLc > 5000
        exact h2
      · rw [if_neg h2] at heq
        by_cases h3 : (lcIter cfg s).2 = true
        · rw [if_pos h3] at heq
          exact ih (lcIter cfg s).1 (reach_lcIter s h) fin heq
        · rw [if_neg h3] at heq
          injection heq with _ hb
          exact absurd hb (by decide)
    · rw [if_neg h1] at heq
      injection heq with hf _
      subst hf
      exact ⟨h, Or.inl (Nat.le_of_not_lt h1)⟩

/-- C10: with a well-formed id set, the mandatory queue of any reachable state
never holds an UPDATE or FUSION task targeting a PARTIAL node; an in-flight
event can newly finish a PARTIAL target only as an EDGE retirement that brings
its remaining dependency count from 1 to 0; and a PARTIAL node with no parents
is never finished, so the scheduler loop can only return through the
max_lc_limit cap. -/
theorem scheduler_C10 (dag : List RNode) (mecm : List (String × Nat)) (pe : Nat) (p : RNode)
    (hnd : (dag.map (fun n => n.id)).Nodup) (hp : p ∈ dag)
    (hpt : p.type = "PARTIAL") (hpp : p.parents = []) :
    (∀ s, Reach (buildCfg dag mecm pe) (initState dag pe) s →
      (∀ t ∈ s.mandatoryQ, (t.ttype = "UPDATE" ∨ t.ttype = "FUSION") →
        (infoOf (buildCfg dag mecm pe) t.id).ntype ≠ "PARTIAL") ∧
      (∀ e ∈ s.peEvents ++ s.nfuEvents,
        (infoOf (buildCfg dag mecm pe) e.target).ntype = "PARTIAL" →
        e.target ∉ s.finished →
        e.target ∈ (handleCompletion (buildCfg dag mecm pe) s e).finished →
        e.etype = "EDGE" ∧ dget s.remDep e.target 0 = 1) ∧
      p.id ∉ s.finished) ∧
    (∀ (fuel : Nat) (fin : SchedState),
      schedLoop (buildCfg dag mecm pe) fuel (initState dag pe) = (fin, true) →
      fin.currentLc > 5000) := by
  have hinj : ∀ ⦃a : RNode⦄, a ∈ dag → ∀ ⦃b : RNode⦄, b ∈ dag → a.id = b.id → a = b :=
    List.inj_on_of_nodup_map hnd
  have hadj : ∀ src x, x ∈ adjOf (buildCfg dag mecm pe) src →
      x ∈ dag.map (fun n => n.id) ∧ x ≠ p.id := by
    intro src x hx
    obtain ⟨item, hm, hxe, hne⟩ := buildCfg_adj_val hx
    subst hxe
    refine ⟨List.mem_map.mpr ⟨item, hm, rfl⟩, ?_⟩
    intro hcontra
    have hip := hinj hm hp hcontra
    rw [hip] at hne
    exact hne hpp
  have hinfo : ∀ pr ∈ (buildCfg dag mecm pe).info,
      (pr.2.ntype = "NORMAL" ∨ pr.2.ntype = "FUSION") →
      pr.1 ∈ dag.map (fun n => n.id) ∧ pr.1 ≠ p.id ∧
      (infoOf (buildCfg dag mecm pe) pr.1).ntype ≠ "PARTIAL" := by
    intro pr hpr hnt
    have h1e := infoOf_mem hpr
    obtain ⟨item, hm, hpre⟩ := buildCfg_info_src hpr
    subst hpre
    dsimp only at hnt h1e ⊢
    have htype : item.type = "NORMAL" ∨ item.type = "FUSION" := hnt
    refine ⟨List.mem_map.mpr ⟨item, hm, rfl⟩, ?_, ?_⟩
    · intro hcontra
      have hip := hinj hm hp hcontra
      rw [hip, hpt] at htype
      rcases htype with h | h <;> exact absurd h (by decide)
    · rw [h1e]
      dsimp only
      intro hcon
      rw [hcon] at htype
      rcases htype with h | h <;> exact absurd h (by decide)
  have hydra : ∀ s, Reach (buildCfg dag mecm pe) (initState dag pe) s →
      InvTen (buildCfg dag mecm pe) p.id (dag.map (fun n => n.id)) s :=
    fun s hs => invTen_reach hadj hinfo
      (invTen_init (buildCfg dag mecm pe) p.id (dag.map (fun n => n.id)) dag pe) hs
  refine ⟨?_, ?_⟩
  · intro s hs
    obtain ⟨hoq, hmq, hevq, hfq, hnodq⟩ := hydra s hs
    refine ⟨?_, ?_, ?_⟩
    · intro t ht hup
      rcases (hmq t ht).1 with h1 | h1
      · rw [h1] at hup
        rcases hup with h | h <;> exact absurd h (by decide)
      · exact h1.2
    · intro e he hpart hnotfin hmem
      obtain ⟨hein, hene, heimp⟩ := hevq e he
      have hnotuf : ¬ (e.etype = "UPDATE" ∨ e.etype = "FUSION") := fun hc => (heimp hc) hpart
      unfold handleCompletion at hmem
      by_cases hedge : e.etype = "EDGE"
      · rw [if_pos hedge] at hmem
        dsimp only at hmem
        rw [if_pos hpart] at hmem
        refine ⟨hedge, ?_⟩
        by_cases hr : dget s.remDep e.target 0 - 1 = 0
        · omega
        · rw [if_neg hr] at hmem
          exact absurd hmem hnotfin
      · rw [if_neg hedge] at hmem
        rw [if_neg hnotuf] at hmem
        exact absurd hmem hnotfin
    · intro hc
      exact (hfq p.id hc).2 rfl
  · intro fuel fin heq
    obtain ⟨hreach, hcase⟩ :=
      schedLoop_reach (buildCfg dag mecm pe) (initState dag pe) fuel (initState dag pe)
        Reach.refl fin heq
    rcases hcase with hge | hcap
    · exfalso
      obtain ⟨_, _, _, hfq, hnodq⟩ := hydra fin hreach
      have hlt := finished_lt_of_missing hnd (List.mem_map.mpr ⟨p, hp, rfl⟩) hfq hnodq
      have htot : (buildCfg dag mecm pe).total = dag.length := rfl
      rw [htot] at hge
      have hlen : (dag.map (fun n => n.id)).length = dag.length := List.length_map _ _
      omega
    · exact hcap

/-- C10 witness: the invariant applied to the single-node parentless PARTIAL
DAG, whose concrete run indeed ends past the LC cap. -/
theorem scheduler_C10_witness : (runScheduler c9dag c9mec 1).1.currentLc > 5000 := by
  have hrun : runScheduler c9dag c9mec 1 =
      ({idleState 5001 with stdoutLog := ["timeout 5001"]}, true) := by
    show schedLoop c9cfg 6000 (initState c9dag 1) = _
    have h0 : initState c9dag 1 = idleState 0 := rfl
    rw [h0]
    exact c9_loop 5001 0 6000 rfl (by omega)
  have happ := (scheduler_C10 c9dag c9mec 1 ⟨"P", "PARTIAL", [], 0, 0⟩ (by decide)
    (List.mem_singleton.mpr rfl) rfl rfl).2 6000
    ({idleState 5001 with stdoutLog := ["timeout 5001"]})
    (by
      show schedLoop (buildCfg c9dag c9mec 1) 6000 (initState c9dag 1) = _
      have h0 : initState c9dag 1 = idleState 0 := rfl
      rw [h0]
      exact c9_loop 5001 0 6000 rfl (by omega))
  rw [hrun]
  exact happ

end Hetero
